import Mathlib

/-!
# Verification of the PrologScript runtime

This file is a shallow embedding, in Lean 4, of the core of the
PrologScript logic-programming / causal-reasoning runtime, together with
theorems settling a list of claims about its behaviour.

The embedding translates the JavaScript sources:

* the `PrologScript` engine (query dispatch, builtin predicates,
  unification over `Term` objects, fact pattern-matching and rule
  inference) — namespace `PS`;
* `CausalModel` (nodes, mechanism edges, interventions, breadth-first
  effect propagation with a visited set) — namespace `CM`;
* `Counterfactual.compute` (snapshot / mutate / observe / restore with a
  `finally` cleanup) — namespace `CFm`;
* the standalone `unify` / `occursIn` functions of `Variable.js` —
  namespace `VarJS`.

Modelling conventions:

* JavaScript values are the inductive `JSVal`; `Term` objects are
  `PTerm` (value, optional binding, optional AST).  JS `Map`s are
  insertion-ordered association lists (`mset` updates an existing key in
  place, otherwise appends — matching JS `Map` insertion order).
* Machine-level JS arithmetic used by the AST hash (`(h << 5) - h + c | 0`)
  is modelled on `Int` with explicit wrapping to 32-bit two's complement.
* Functions that can diverge in JS (mutually recursive query/rule
  evaluation, binding-chain chasing, BFS loops) take an explicit fuel
  argument and return `none` when the fuel is exhausted; a JS exception
  is an `Except.error` value.
* Object identity (`===`) on non-primitive values is modelled as `false`
  (distinct heap objects); all claim scenarios only compare primitives.
  Mutation of a `Term` object that is still aliased from the binding map
  is not tracked (value semantics); this only affects the `binding`
  field of the stored AST-hash entry, which no claim observes.
-/

set_option linter.unusedVariables false
set_option maxRecDepth 2000

mutual

/-- A JavaScript runtime value as used by the PrologScript engine:
numbers, strings, booleans, `null`, `undefined`, arrays, `Map`s keyed by
strings, `Set`s, and `Term` objects. -/
inductive JSVal where
  | num (n : Int)
  | str (s : String)
  | bool (b : Bool)
  | null
  | undefined
  | list (xs : List JSVal)
  | jmap (entries : List (String × JSVal))
  | jset (xs : List JSVal)
  | term (t : PTerm)

/-- A `Term` object from Term.js: a wrapped value, an optional binding
(another term), and an optional expression AST. -/
inductive PTerm where
  | mk (value : JSVal) (binding : Option PTerm) (ast : Option AST)

/-- The expression ASTs produced by `Term.createBinaryOp`: variable
leaves (whose `name` field is an arbitrary JS value, since the guarded
`createBinaryOp` stores non-string term values unchanged) and binary
operator nodes. -/
inductive AST where
  | varNode (name : JSVal)
  | binop (op : String) (left right : AST)

end

/-- The `value` field of a Term. -/
def PTerm.value : PTerm → JSVal
  | .mk v _ _ => v

/-- The `binding` field of a Term. -/
def PTerm.binding : PTerm → Option PTerm
  | .mk _ b _ => b

/-- The `ast` field of a Term. -/
def PTerm.ast : PTerm → Option AST
  | .mk _ _ a => a

/-- JS `Map.get`: first value stored under the key, if any. -/
def mget {α : Type} : List (String × α) → String → Option α
  | [], _ => none
  | p :: rest, k => if p.1 = k then some p.2 else mget rest k

/-- JS `Map.set`: update an existing key in place, otherwise append
(JS `Map`s preserve insertion order and keep keys unique). -/
def mset {α : Type} (l : List (String × α)) (k : String) (v : α) :
    List (String × α) :=
  if l.any (fun p => p.1 = k) then
    l.map (fun p => if p.1 = k then (k, v) else p)
  else
    l ++ [(k, v)]

/-- JS `Map.has`. -/
def mhas {α : Type} (l : List (String × α)) (k : String) : Bool :=
  (mget l k).isSome

/-- JS strict equality `===` restricted to the values the engine
compares: primitives compare by value; distinct heap objects (arrays,
maps, sets, terms) compare unequal. -/
def jsStrictEq : JSVal → JSVal → Bool
  | .num a, .num b => a = b
  | .str a, .str b => a = b
  | .bool a, .bool b => a = b
  | .null, .null => true
  | .undefined, .undefined => true
  | _, _ => false

/-- JS truthiness: `false`, `0`, `""`, `null` and `undefined` are falsy;
every other value (including empty arrays and maps) is truthy. -/
def truthy : JSVal → Bool
  | .bool b => b
  | .num n => n ≠ 0
  | .str s => s ≠ ""
  | .null => false
  | .undefined => false
  | _ => true

/-- JS string coercion `String(v)`, depth-bounded: arrays join their
elements with commas, with `null`/`undefined` elements rendering as the
empty string (`Array.prototype.toString`).  The depth argument only
limits nesting of arrays inside arrays; it is instantiated with a bound
that always suffices. -/
def jsToStringD : Nat → JSVal → String
  | _, .num n => toString n
  | _, .str s => s
  | _, .bool b => if b then "true" else "false"
  | _, .null => "null"
  | _, .undefined => "undefined"
  | 0, .list _ => ""
  | d + 1, .list xs =>
    String.intercalate ","
      (xs.map (fun x =>
        match x with
        | .null => ""
        | .undefined => ""
        | v => jsToStringD d v))
  | _, .jmap _ => "[object Map]"
  | _, .jset _ => "[object Set]"
  | _, .term _ => "[object Object]"

/-- JS string coercion `String(v)`.  The depth bound is exact for any
array nesting the engine can build (deeply nested arrays would overflow
the JS call stack long before this bound). -/
def jsToString (v : JSVal) : String := jsToStringD 100 v

/-- A single array element rendered for `Array.prototype.join`
(`null`/`undefined` render empty). -/
def elemStr : JSVal → String
  | .null => ""
  | .undefined => ""
  | v => jsToString v

/-- A JS exception: a generic `Error` with a message, or a `TypeError`
raised by calling a method on a value that lacks it. -/
inductive JSError where
  | err (msg : String)
  | typeError

/-- JS `list[i]`: `undefined` when the index is out of range. -/
def jsIdx (args : List JSVal) (i : Nat) : JSVal :=
  (args.get? i).getD .undefined

/-- `parts[i]` for the segments of a split string: `none` models JS
`undefined`. -/
def partAt (parts : List String) (i : Nat) : Option String :=
  parts.get? i

/-!  Character-level string helpers.  The JS sources use
`String.prototype.split(':')`, `startsWith`, `slice(1)` and template
literals; these are reimplemented over `List Char` (they mirror the JS
semantics: `"".split(':')` is `[""]`, `"a:".split(':')` is
`["a", ""]`, etc.). -/

/-- Split a character list at every occurrence of `sep` (JS
`String.prototype.split` with a single-character separator). -/
def chSplit (sep : Char) : List Char → List (List Char)
  | [] => [[]]
  | c :: rest =>
    match chSplit sep rest with
    | [] => [[c]]
    | g :: gs => if c = sep then [] :: g :: gs else (c :: g) :: gs

/-- JS `s.split(':')`. -/
def splitColon (s : String) : List String :=
  (chSplit ':' s.data).map String.mk

/-- JS `s.startsWith('$')`. -/
def startsDollar (s : String) : Bool :=
  match s.data with
  | c :: _ => c = '$'
  | [] => false

/-- JS `s.slice(1)`. -/
def dropFirst (s : String) : String :=
  String.mk s.data.tail

/-- Whether the first list is a prefix of the second. -/
def listPref : List Char → List Char → Bool
  | [], _ => true
  | _ :: _, [] => false
  | a :: as, b :: bs => a = b && listPref as bs

/-- JS `s.startsWith(p)` for a general prefix. -/
def strPref (p s : String) : Bool :=
  listPref p.data s.data

/-- JS `Array.prototype.join(':')` over already-stringified segments. -/
def joinColon : List String → String
  | [] => ""
  | [x] => x
  | x :: rest => x ++ ":" ++ joinColon rest

namespace CM

/-- A mechanism attached to a causal edge: a deterministic function from
the cause's current state to the effect's new state (CausalModel.js
stores a JS closure on the edge). -/
def Mech : Type := JSVal → JSVal

/-- A node of the causal graph: current state, declared state space
(`null` when undeclared), and parent/child adjacency
(CausalModel.addNode). -/
structure CNode where
  state : JSVal
  stateSpace : JSVal
  parents : List String
  children : List String

/-- The causal model: nodes, mechanism edges (cause → effect →
mechanism) and the live interventions map (CausalModel.js constructor). -/
structure CModel where
  nodes : List (String × CNode)
  edges : List (String × List (String × Mech))
  interventions : List (String × JSVal)

/-- A freshly constructed CausalModel. -/
def emptyModel : CModel := ⟨[], [], []⟩

/-- `CausalModel.addNode(name, defaultState = null, stateSpace = null)`. -/
def addNode (m : CModel) (name : String) (defaultState : JSVal := .null)
    (stateSpace : JSVal := .null) : CModel :=
  { m with nodes := mset m.nodes name ⟨defaultState, stateSpace, [], []⟩ }

/-- JS `Set.prototype.add` on a list-modelled set of strings. -/
def addToSetList (l : List String) (x : String) : List String :=
  if l.contains x then l else l ++ [x]

/-- Update the node stored under `name` in place (JS mutates the object
returned by `nodes.get(name)`). -/
def updateNodeEntry (ns : List (String × CNode)) (name : String)
    (f : CNode → CNode) : List (String × CNode) :=
  ns.map (fun p => if p.1 = name then (p.1, f p.2) else p)

/-- `CausalModel.addCause(cause, effect, mechanism)`: auto-create the
endpoint nodes, insert/overwrite the edge mechanism, and record the
parent/child relationship on both nodes. -/
def addCause (m : CModel) (cause effect : String) (mech : Mech) : CModel :=
  let m1 := if mhas m.nodes cause then m else addNode m cause
  let m2 := if mhas m1.nodes effect then m1 else addNode m1 effect
  let inner := (mget m2.edges cause).getD []
  let m3 := { m2 with edges := mset m2.edges cause (mset inner effect mech) }
  let ns1 := updateNodeEntry m3.nodes effect
    (fun n => { n with parents := addToSetList n.parents cause })
  let ns2 := updateNodeEntry ns1 cause
    (fun n => { n with children := addToSetList n.children effect })
  { m3 with nodes := ns2 }

/-- `CausalModel.getState(node)`: an active intervention takes
precedence over the node's own state; an unknown node reads as `null`. -/
def getState (m : CModel) (n : String) : JSVal :=
  match mget m.interventions n with
  | some v => v
  | none =>
    match mget m.nodes n with
    | some info => info.state
    | none => .null

/-- Plain assignment `nodeInfo.state = v` for the node stored under
`name` (used by the restore loop of Counterfactual.compute and by the
`assert` predicate, which bypass domain validation). -/
def setNodeState (ns : List (String × CNode)) (name : String) (v : JSVal) :
    List (String × CNode) :=
  ns.map (fun p => if p.1 = name then (p.1, { p.2 with state := v }) else p)

/-- `CausalModel._updateNodeState(node, newState)`: no-op on a missing
node; if a truthy `stateSpace` is declared, reject values outside it
with an error (`includes` on a non-array value is a TypeError); then
assign the state. -/
def updateNodeState (m : CModel) (node : String) (newState : JSVal) :
    Except JSError CModel :=
  match mget m.nodes node with
  | none => .ok m
  | some info =>
    if truthy info.stateSpace then
      match info.stateSpace with
      | .list xs =>
        if xs.any (fun s => jsStrictEq s newState) then
          .ok { m with nodes := setNodeState m.nodes node newState }
        else
          .error (.err ("Invalid state " ++ jsToString newState ++
            " for node " ++ node))
      | _ => .error .typeError
    else
      .ok { m with nodes := setNodeState m.nodes node newState }

/-- The inner `for (const [childNode, mechanism] of edges)` loop of
`_propagateEffects`: for each outgoing edge whose target is not under an
active intervention, compute the mechanism's output from the cached
current state, skip `null` outputs, validate-and-update the target, and
collect the targets to enqueue.  A validation error aborts the whole
propagation, keeping the partially updated model. -/
def processChildren (m : CModel) (cur : JSVal) :
    List (String × Mech) → Except (JSError × CModel) (CModel × List String)
  | [] => .ok (m, [])
  | (child, mech) :: rest =>
    if mhas m.interventions child then processChildren m cur rest
    else
      let newState := mech cur
      if jsStrictEq newState .null then processChildren m cur rest
      else
        match updateNodeState m child newState with
        | .error e => .error (e, m)
        | .ok m1 =>
          match processChildren m1 cur rest with
          | .error em => .error em
          | .ok (m2, pushes) => .ok (m2, child :: pushes)

/-- `CausalModel._propagateEffects(startNode)`: iterative FIFO
breadth-first traversal with an explicit visited set.  Returns the
error (if a domain validation failed), the final model, and the list of
nodes actually visited, in visit order.  `none` models fuel exhaustion
(the JS loop has no such bound; sufficiency is proved below). -/
def propagateF : Nat → CModel → List String → List String →
    Option (Option JSError × CModel × List String)
  | 0, _, _, _ => none
  | fuel + 1, m, visited, queue =>
    match queue with
    | [] => some (none, m, visited)
    | q :: qs =>
      if visited.contains q then propagateF fuel m visited qs
      else
        let visited1 := visited ++ [q]
        let cur := getState m q
        match mget m.edges q with
        | none => propagateF fuel m visited1 qs
        | some es =>
          match processChildren m cur es with
          | .error (e, m1) => some (some e, m1, visited1)
          | .ok (m1, pushes) => propagateF fuel m1 visited1 (qs ++ pushes)

/-- `CausalModel.intervene(node, value)`: record the forced value, then
propagate effects from the node; returns the node's state after
propagation. -/
def interveneF (fuel : Nat) (m : CModel) (node : String) (value : JSVal) :
    Option (Option JSError × CModel × JSVal) :=
  let m1 := { m with interventions := mset m.interventions node value }
  match propagateF fuel m1 [] [node] with
  | none => none
  | some (errOpt, m2, _) => some (errOpt, m2, getState m2 node)

/-- All edge targets of the model (used for the propagation fuel
bound). -/
def targets (m : CModel) : List String :=
  m.edges.flatMap (fun p => p.2.map Prod.fst)

/-- An explicit fuel bound sufficient for `propagateF` to finish. -/
def propBound (m : CModel) (queue : List String) : Nat :=
  (queue ++ targets m).length * ((targets m).length + 1) + queue.length + 1

end CM

namespace CFm

/-- The `Counterfactual` builder state: the pending interventions map
and the effects map populated by `compute()`. -/
structure CFState where
  interventions : List (String × JSVal)
  effects : List (String × JSVal)

/-- The `for (const [variable, value] of this.interventions)` loop of
`compute()`: apply each pending intervention through the model's normal
`intervene`, aborting on a thrown domain error (with the partially
mutated model). -/
def applyIntervs (fuel : Nat) :
    List (String × JSVal) → CM.CModel → Option (Option JSError × CM.CModel)
  | [], m => some (none, m)
  | (v, val) :: rest, m =>
    match CM.interveneF fuel m v val with
    | none => none
    | some (some e, m1, _) => some (some e, m1)
    | some (none, m1, _) => applyIntervs fuel rest m1

/-- Record the post-intervention state of every node into the
counterfactual's effects map. -/
def recordEffects (cf : CFState) (m : CM.CModel) : CFState :=
  { cf with effects :=
      m.nodes.foldl (fun acc p => mset acc p.1 (CM.getState m p.1)) cf.effects }

/-- The `finally` restore loop: for every snapshotted node that still
exists, assign its saved state back. -/
def restoreNodes (ns : List (String × CM.CNode))
    (orig : List (String × JSVal)) : List (String × CM.CNode) :=
  orig.foldl (fun acc p => CM.setNodeState acc p.1 p.2) ns

/-- `Counterfactual.compute()` (the try/finally version bundled in
dist): snapshot every node's state and the live interventions map;
clear the live interventions; apply the pending interventions (each
triggering propagation, possibly raising a domain-validation error);
on success record every node's state into the effects map; and in a
guaranteed cleanup step restore node states and the interventions map
from the snapshot.  Returns (thrown error if any, updated
counterfactual, final model). -/
def computeF (fuel : Nat) (cf : CFState) (m : CM.CModel) :
    Option (Option JSError × CFState × CM.CModel) :=
  let originalStates := m.nodes.map (fun p => (p.1, p.2.state))
  let originalInterventions := m.interventions
  let m0 := { m with interventions := [] }
  match applyIntervs fuel cf.interventions m0 with
  | none => none
  | some (errOpt, m1) =>
    let cf1 :=
      match errOpt with
      | none => recordEffects cf m1
      | some _ => cf
    let m2 := { m1 with
      nodes := restoreNodes m1.nodes originalStates,
      interventions := originalInterventions }
    some (errOpt, cf1, m2)

/-- `Counterfactual.getEffect(variable)`. -/
def getEffect (cf : CFState) (v : String) : JSVal :=
  (mget cf.effects v).getD .undefined

end CFm

namespace PS

/-- A choice point (ChoicePoint.js): a list of untried alternatives
(goal, args) and a snapshot copy of the bindings map. -/
structure ChoicePoint where
  alternatives : List (String × List JSVal)
  bindings : List (String × JSVal)

/-- The binding environment (UnificationContext.js, the snapshot with
depth management): bindings, a stack of choice points, and a bounded
depth counter with `maxDepth = 100`. -/
structure UCtx where
  bindings : List (String × JSVal)
  choicePoints : List ChoicePoint
  depth : Nat
  maxDepth : Nat

/-- `new UnificationContext()`. -/
def freshCtx : UCtx := ⟨[], [], 0, 100⟩

/-- `UnificationContext.incrementDepth()`: throw
'Maximum recursion depth exceeded' when `depth >= maxDepth`, otherwise
increment. -/
def incrementDepth (c : UCtx) : Except JSError UCtx :=
  if c.maxDepth ≤ c.depth then
    .error (.err "Maximum recursion depth exceeded")
  else .ok { c with depth := c.depth + 1 }

/-- `UnificationContext.decrementDepth()`. -/
def decrementDepth (c : UCtx) : UCtx := { c with depth := c.depth - 1 }

/-- `UnificationContext.backtrack()`: pop the newest choice point,
restore its bindings snapshot, and return its last untried alternative
(JS `Array.prototype.pop`), or nothing when none remain. -/
def ctxBacktrack (c : UCtx) : Option (String × List JSVal) × UCtx :=
  match c.choicePoints with
  | [] => (none, c)
  | cp :: rest =>
    (cp.alternatives.getLast?,
     { c with bindings := cp.bindings, choicePoints := rest })

/-- An entry of the engine-level knowledge base: `isA` facts are JS
`Set`s of entities, other facts are plain values. -/
inductive KBEntry where
  | plain (v : JSVal)
  | setE (xs : List JSVal)

/-- A rule body condition: a sub-goal pattern string, or a native
closure.  Native closures receive the unification context; they are
modelled as pure predicates over the context bindings (none of the
claims exercises a mutating closure condition). -/
inductive Cond where
  | s (pattern : String)
  | fn (f : List (String × JSVal) → Bool)

/-- A Reality as seen by the engine core: its name and its owned
CausalModel (the facts/rules stored on Reality.js itself are not
consulted by the engine's query path, which uses the engine-level
knowledge base and rule map). -/
structure RealityM where
  name : String
  causalModel : CM.CModel

/-- The PrologScript engine state.  Reality objects live in an arena
(`heap`) so that `activeReality` is a reference (`active` is a heap
index) and mutations through it are visible from the realities table,
as in JS. -/
structure Engine where
  heap : List RealityM
  table : List (String × Nat)
  active : Option Nat
  knowledgeBase : List (String × KBEntry)
  rules : List (String × List Cond)
  semanticRelations : List (String × List String)
  ctx : UCtx

/-- `new PrologScript()` (the fields the claims exercise). -/
def initEngine : Engine := ⟨[], [], none, [], [], [], freshCtx⟩

/-- `createReality(name)`: allocate, register, and activate if no
Reality is active yet. -/
def createReality (e : Engine) (name : String) : Engine :=
  let idx := e.heap.length
  let e1 := { e with
    heap := e.heap ++ [RealityM.mk name CM.emptyModel],
    table := mset e.table name idx }
  match e1.active with
  | none => { e1 with active := some idx }
  | some _ => e1

/-- `switchReality(name)`: activate and return `true` if known,
otherwise return `false` with no side effect. -/
def switchReality (e : Engine) (name : String) : Bool × Engine :=
  match mget e.table name with
  | some idx => (true, { e with active := some idx })
  | none => (false, e)

/-- The active Reality's causal model, if a Reality is active. -/
def activeModel (e : Engine) : Option CM.CModel :=
  match e.active with
  | some i => (e.heap.get? i).map (fun r => r.causalModel)
  | none => none

/-- Write back a mutated causal model into the active Reality. -/
def setActiveModel (e : Engine) (m : CM.CModel) : Engine :=
  match e.active with
  | some i =>
    match e.heap.get? i with
    | some r => { e with heap := e.heap.set i { r with causalModel := m } }
    | none => e
  | none => e

/-- `addRule(head, ...body)`: register or overwrite (the overwrite
console warning is not modelled; the empty-head throw is not exercised). -/
def addRule (e : Engine) (head : String) (body : List Cond) : Engine :=
  { e with rules := mset e.rules head body }

/-- `addSemanticRelation(term1, term2)`: record the bidirectional
relation. -/
def addSemanticRelation (e : Engine) (t1 t2 : String) : Engine :=
  let r1 := (mget e.semanticRelations t1).getD []
  let s1 := mset e.semanticRelations t1 (CM.addToSetList r1 t2)
  let r2 := (mget s1 t2).getD []
  { e with semanticRelations := mset s1 t2 (CM.addToSetList r2 t1) }

/-- `Term.prototype.isVariable()`: the value is a string starting with
`$`. -/
def isVariableT (t : PTerm) : Bool :=
  match t.value with
  | .str s => startsDollar s
  | _ => false

/-- `Term.prototype.isList()`. -/
def isListT (t : PTerm) : Bool :=
  match t.value with
  | .list _ => true
  | _ => false

/-- `Term.prototype.isExpression()`: the term carries an AST. -/
def isExpressionT (t : PTerm) : Bool := t.ast.isSome

/-- Whether a term value is a JS number. -/
def isNumV : JSVal → Bool
  | .num _ => true
  | _ => false

/-- `_resolveTerm` on a Term object: follow the binding chain while the
term is a variable. -/
def resolveTermP : PTerm → PTerm
  | .mk v none a => .mk v none a
  | .mk v (some b) a =>
    match v with
    | .str s => if startsDollar s then resolveTermP b else .mk v (some b) a
    | _ => .mk v (some b) a

/-- `PrologScript._resolveTerm(term)`: Terms are resolved through their
binding chain; raw values are wrapped in a fresh Term. -/
def resolveTermJ : JSVal → PTerm
  | .term t => resolveTermP t
  | v => .mk v none none

/-- `PrologScript._isVariable(term)`: a variable Term, or a string
starting with `$`. -/
def isVariableJ : JSVal → Bool
  | .term t => isVariableT t
  | .str s => startsDollar s
  | _ => false

/-- `PrologScript._occursCheck(variable, term)` as a worklist: a
variable term occurs when its value equals the checked variable's
value; list terms are searched element-wise (each element resolved
first), depth-first with short-circuit, exactly as the JS recursion.
The worklist holds the already-resolved terms still to check. -/
def occursTF : Nat → PTerm → List PTerm → Option Bool
  | _, _, [] => some false
  | 0, _, _ => none
  | fuel + 1, vt, t :: rest =>
    if isVariableT t then
      if jsStrictEq vt.value t.value then some true else occursTF fuel vt rest
    else
      match t.value with
      | .list xs => occursTF fuel vt (xs.map resolveTermJ ++ rest)
      | _ => occursTF fuel vt rest

/-- `_bindVariable` when the variable is a Term (case 1): occurs-check
then bind; if the Term's value is a `$`-string, also record the binding
in the context under the bare name.  The mutation of the Term object's
own `binding` field is transient and not tracked. -/
def bindVariableT (fuel : Nat) (c : UCtx) (vt value : PTerm) :
    Option (Bool × UCtx) :=
  match occursTF fuel vt [value] with
  | none => none
  | some true => some (false, c)
  | some false =>
    match vt.value with
    | .str s =>
      if startsDollar s then
        some (true, { c with bindings := mset c.bindings (dropFirst s) (.term value) })
      else some (true, c)
    | _ => some (true, c)

/-- `PrologScript._bindVariable(variable, value)` in general: Term
variables go through the occurs-check path (a non-Term value would make
`_occursCheck` call `.isVariable()` on it — a TypeError); `$`-strings
bind by name without an occurs check; anything else compares `===`. -/
def bindVariableJ (fuel : Nat) (c : UCtx) (v value : JSVal) :
    Option (Except JSError (Bool × UCtx)) :=
  match v with
  | .term t =>
    match value with
    | .term tv => (bindVariableT fuel c t tv).map .ok
    | _ => some (.error .typeError)
  | .str s =>
    if startsDollar s then
      some (.ok (true, { c with bindings := mset c.bindings (dropFirst s) value }))
    else some (.ok (jsStrictEq v value, c))
  | _ => some (.ok (jsStrictEq v value, c))

/-- `PrologScript.unify(term1, term2)` over a worklist of pairs, which
reproduces the JS element-wise `every` over list pairs (sequential,
short-circuiting on the first failure, with bindings from earlier
elements retained).  The `t1 === t2` identity fast path of the JS code
cannot hold for the freshly wrapped distinct objects modelled here and
is subsumed by the value cases.  Both-expression terms reach the call
to the nowhere-defined `this._unifyAST` — a TypeError. -/
def unifyPairsF : Nat → UCtx → List (JSVal × JSVal) →
    Option (Except JSError (Bool × UCtx))
  | _, c, [] => some (.ok (true, c))
  | 0, _, _ => none
  | fuel + 1, c, (a, b) :: rest =>
    let t1 := resolveTermJ a
    let t2 := resolveTermJ b
    if isVariableT t1 && isVariableT t2 then
      if jsStrictEq t1.value t2.value then unifyPairsF fuel c rest
      else
        match bindVariableT fuel c t1 t2 with
        | none => none
        | some (true, c1) => unifyPairsF fuel c1 rest
        | some (false, c1) => some (.ok (false, c1))
    else if isVariableT t1 then
      match bindVariableT fuel c t1 t2 with
      | none => none
      | some (true, c1) => unifyPairsF fuel c1 rest
      | some (false, c1) => some (.ok (false, c1))
    else if isVariableT t2 then
      match bindVariableT fuel c t2 t1 with
      | none => none
      | some (true, c1) => unifyPairsF fuel c1 rest
      | some (false, c1) => some (.ok (false, c1))
    else if isNumV t1.value && isExpressionT t2 then
      match bindVariableT fuel c t2 t1 with
      | none => none
      | some (true, c1) => unifyPairsF fuel c1 rest
      | some (false, c1) => some (.ok (false, c1))
    else if isNumV t2.value && isExpressionT t1 then
      match bindVariableT fuel c t1 t2 with
      | none => none
      | some (true, c1) => unifyPairsF fuel c1 rest
      | some (false, c1) => some (.ok (false, c1))
    else if isExpressionT t1 && isExpressionT t2 then
      some (.error .typeError)
    else
      match t1.value, t2.value with
      | .list xs, .list ys =>
        if xs.length = ys.length then unifyPairsF fuel c (xs.zip ys ++ rest)
        else some (.ok (false, c))
      | v1, v2 =>
        if jsStrictEq v1 v2 then unifyPairsF fuel c rest
        else some (.ok (false, c))

/-- `PrologScript.unify(term1, term2)`. -/
def unifyF (fuel : Nat) (c : UCtx) (a b : JSVal) :
    Option (Except JSError (Bool × UCtx)) :=
  unifyPairsF fuel c [(a, b)]

/-- `PrologScript._evaluateArithmetic(term)`: `none` models the JS
`null` result for variables and non-numbers. -/
def evaluateArithmeticF (x : JSVal) : Option Int :=
  let r := resolveTermJ x
  if isVariableT r then none
  else
    match r.value with
    | .num n => some n
    | _ => none

/-- JS `String.prototype.replace("$", "")`: remove the first `$`. -/
def removeFirstDollar : List Char → List Char
  | [] => []
  | c :: rest => if c = '$' then rest else c :: removeFirstDollar rest

/-- `left.value.replace("$", "")` used by `createBinaryOp`. -/
def replaceFirstDollar (s : String) : String :=
  String.mk (removeFirstDollar s.data)

/-- An operand of `Term.createBinaryOp` (the guarded version bundled in
dist): string term values are turned into variable names with the first
`$` stripped; non-string term values are stored unchanged as the
`name`. -/
def operandNode (t : PTerm) : AST :=
  match t.value with
  | .str s => .varNode (.str (replaceFirstDollar s))
  | v => .varNode v

/-- `Term.createBinaryOp(operator, left, right)` for Term operands. -/
def createBinaryOp (op : String) (l r : PTerm) : AST :=
  .binop op (operandNode l) (operandNode r)

/-- A JSON string literal (the names hashed here need no escaping). -/
def jsonQ (s : String) : String := "\"" ++ s ++ "\""

/-- JSON rendering of a `Variable` node's `name` field (string, number,
boolean or null; other values do not occur in created ASTs). -/
def jsonOfName : JSVal → String
  | .str s => jsonQ s
  | .num n => toString n
  | .bool b => if b then "true" else "false"
  | _ => "null"

/-- `JSON.stringify(_standardizeAST(ast))`: keys are emitted in sorted
order (`left < operator < right < type`, `name < type`), matching
`_standardizeAST`'s key sort; an `undefined` name would be omitted by
`JSON.stringify`. -/
def jsonOfAST : AST → String
  | .varNode n =>
    match n with
    | .undefined => "\x7b" ++ jsonQ "type" ++ ":" ++ jsonQ "Variable" ++ "\x7d"
    | _ =>
      "\x7b" ++ jsonQ "name" ++ ":" ++ jsonOfName n ++ "," ++
        jsonQ "type" ++ ":" ++ jsonQ "Variable" ++ "\x7d"
  | .binop op l r =>
    "\x7b" ++ jsonQ "left" ++ ":" ++ jsonOfAST l ++ "," ++
      jsonQ "operator" ++ ":" ++ jsonQ op ++ "," ++
      jsonQ "right" ++ ":" ++ jsonOfAST r ++ "," ++
      jsonQ "type" ++ ":" ++ jsonQ "BinaryExpression" ++ "\x7d"

/-- Wrap an integer to 32-bit two's complement (JS `| 0`). -/
def i32 (n : Int) : Int := ((n + 2147483648) % 4294967296) - 2147483648

/-- One step of `_hashAST`'s loop:
`hash = (hash << 5) - hash + charCode; hash |= 0`. -/
def hashStep (h : Int) (c : Nat) : Int := i32 (i32 (h * 32) - h + c)

/-- The `_hashAST` character loop over a string — the literal
transcription of the source loop on signed 32-bit values. -/
def hashStringSpec (s : String) : Int :=
  s.data.foldl (fun h ch => hashStep h ch.toNat) 0

/-- One step of the hash loop carried on the unsigned 32-bit residue:
`(h << 5) - h + c` wrapped to 32 bits is `h * 31 + c (mod 2^32)`. -/
def hashStepN (h : Nat) (c : Nat) : Nat := (h * 31 + c) % 4294967296

/-- The unsigned residue of the hash loop. -/
def hashStringN (s : String) : Nat :=
  s.data.foldl (fun h ch => hashStepN h ch.toNat) 0

/-- Reinterpret an unsigned 32-bit residue as the signed value JS
`| 0` yields. -/
def signedOf (hu : Nat) : Int :=
  if hu < 2147483648 then (hu : Int) else (hu : Int) - 4294967296

/-- The `_hashAST` character loop, computed on unsigned residues (the
theorem `hashString_eq_spec` below proves this equal to the literal
transcription `hashStringSpec`; the unsigned form keeps kernel
evaluation shallow). -/
def hashString (s : String) : Int := signedOf (hashStringN s)

/-- JS `Number.prototype.toString(16)`: lowercase hex, sign-magnitude
for negatives. -/
def toHexJS (n : Int) : String :=
  if n < 0 then "-" ++ (Nat.toDigits 16 n.natAbs).asString
  else (Nat.toDigits 16 n.toNat).asString

/-- `PrologScript._hashAST(ast)`. -/
def hashAST (a : AST) : String :=
  "AST_" ++ toHexJS (hashString (jsonOfAST a))

/-- The type of a registered predicate closure as invoked by the
dispatch path: it receives the engine and the raw call arguments and
returns its raw JS result together with the mutated engine. -/
def PredFn : Type :=
  Nat → Engine → List JSVal → Option (Except JSError (JSVal × Engine))

/-- Package the boolean result of `unify` and the mutated context into
a predicate result. -/
def wrapU (e : Engine) (r : Option (Except JSError (Bool × UCtx))) :
    Option (Except JSError (JSVal × Engine)) :=
  match r with
  | none => none
  | some (.error er) => some (.error er)
  | some (.ok (b, c)) => some (.ok (.bool b, { e with ctx := c }))

/-- JS `+` restricted to numbers; any non-numeric operand falls back to
string concatenation of the coercions (approximate, not exercised by
the claims). -/
def jsAdd : JSVal → JSVal → JSVal
  | .num a, .num b => .num (a + b)
  | a, b => .str (jsToString a ++ jsToString b)

/-- JS `-` restricted to numbers; non-numeric operands would produce
`NaN`, modelled as `undefined` (not exercised by the claims). -/
def jsSub : JSVal → JSVal → JSVal
  | .num a, .num b => .num (a - b)
  | _, _ => .undefined

/-- The `cons` predicate. -/
def consPred : PredFn := fun fuel e args =>
  let hd := resolveTermJ (jsIdx args 0)
  let tl := resolveTermJ (jsIdx args 1)
  match tl.value with
  | .list xs => wrapU e (unifyF fuel e.ctx (jsIdx args 2) (.list (hd.value :: xs)))
  | _ => some (.ok (.bool false, e))

/-- The `head` predicate. -/
def headPred : PredFn := fun fuel e args =>
  let l := resolveTermJ (jsIdx args 0)
  match l.value with
  | .list (x :: _) => wrapU e (unifyF fuel e.ctx (jsIdx args 1) x)
  | _ => some (.ok (.bool false, e))

/-- The `tail` predicate. -/
def tailPred : PredFn := fun fuel e args =>
  let l := resolveTermJ (jsIdx args 0)
  match l.value with
  | .list (_ :: xs) => wrapU e (unifyF fuel e.ctx (jsIdx args 1) (.list xs))
  | _ => some (.ok (.bool false, e))

/-- The `append` predicate. -/
def appendPred : PredFn := fun fuel e args =>
  let l1 := resolveTermJ (jsIdx args 0)
  let l2 := resolveTermJ (jsIdx args 1)
  match l1.value, l2.value with
  | .list xs, .list ys =>
    wrapU e (unifyF fuel e.ctx (jsIdx args 2) (.list (xs ++ ys)))
  | _, _ => some (.ok (.bool false, e))

/-- The `add` predicate (the AST-aware version of the main snapshot):
with both operands evaluable, unify the result with their sum;
otherwise build the `X + Y` AST and either compute forward, solve for
the unknown operand from a bound result, or bind the hashed symbolic
AST term to the result variable. -/
def addPred : PredFn := fun fuel e args =>
  let argX := jsIdx args 0
  let argY := jsIdx args 1
  let argR := jsIdx args 2
  match evaluateArithmeticF argX, evaluateArithmeticF argY with
  | some x, some y => wrapU e (unifyF fuel e.ctx argR (.num (x + y)))
  | _, _ =>
    let xTerm := resolveTermJ argX
    let yTerm := resolveTermJ argY
    let resultTerm := resolveTermJ argR
    let ast := createBinaryOp "+" xTerm yTerm
    if !isVariableT xTerm && !isVariableT yTerm then
      wrapU e (unifyF fuel e.ctx argR
        (.term (.mk (jsAdd xTerm.value yTerm.value) none (some ast))))
    else if !isVariableT resultTerm && !isVariableT yTerm then
      wrapU e (unifyF fuel e.ctx argX
        (.term (.mk (jsSub resultTerm.value yTerm.value) none (some ast))))
    else if !isVariableT resultTerm && !isVariableT xTerm then
      wrapU e (unifyF fuel e.ctx argY
        (.term (.mk (jsSub resultTerm.value xTerm.value) none (some ast))))
    else
      let c1 := mset e.ctx.bindings "X" (.term xTerm)
      let c2 := mset c1 "Y" (.term yTerm)
      let h := hashAST ast
      let astTerm : PTerm := .mk (.str h) none (some ast)
      let c3 := mset c2 h (.term astTerm)
      wrapU e (unifyF fuel { e.ctx with bindings := c3 } argR (.term astTerm))

/-- The `subtract` predicate. -/
def subtractPred : PredFn := fun fuel e args =>
  match evaluateArithmeticF (jsIdx args 0), evaluateArithmeticF (jsIdx args 1) with
  | some x, some y => wrapU e (unifyF fuel e.ctx (jsIdx args 2) (.num (x - y)))
  | _, _ => some (.ok (.bool false, e))

/-- The `multiply` predicate. -/
def multiplyPred : PredFn := fun fuel e args =>
  match evaluateArithmeticF (jsIdx args 0), evaluateArithmeticF (jsIdx args 1) with
  | some x, some y => wrapU e (unifyF fuel e.ctx (jsIdx args 2) (.num (x * y)))
  | _, _ => some (.ok (.bool false, e))

/-- The `greater` predicate. -/
def greaterPred : PredFn := fun _ e args =>
  match evaluateArithmeticF (jsIdx args 0), evaluateArithmeticF (jsIdx args 1) with
  | some x, some y => some (.ok (.bool (y < x), e))
  | _, _ => some (.ok (.bool false, e))

/-- The `less` predicate. -/
def lessPred : PredFn := fun _ e args =>
  match evaluateArithmeticF (jsIdx args 0), evaluateArithmeticF (jsIdx args 1) with
  | some x, some y => some (.ok (.bool (x < y), e))
  | _, _ => some (.ok (.bool false, e))

/-- The `assert` predicate: ensure the causal node exists, assign its
state directly (no domain validation), and mirror the value into the
engine-level knowledge base under the bare fact name.  Node keys are
modelled by their string coercion (every caller passes strings). -/
def assertPredF (e : Engine) (v state : JSVal) : JSVal × Engine :=
  match activeModel e with
  | none => (.bool false, e)
  | some m =>
    let s := jsToString v
    let m1 := if mhas m.nodes s then m else CM.addNode m s
    let m2 := { m1 with nodes := CM.setNodeState m1.nodes s state }
    let e1 := setActiveModel e m2
    (.bool true, { e1 with knowledgeBase := mset e1.knowledgeBase s (.plain state) })

/-- The `stateSpace` predicate: declare the allowed value set for a
causal node, creating it if needed. -/
def stateSpacePredF (e : Engine) (v possibleStates : JSVal) : JSVal × Engine :=
  match activeModel e with
  | none => (.bool false, e)
  | some m =>
    let s := jsToString v
    let m1 :=
      if mhas m.nodes s then
        { m with nodes := m.nodes.map (fun p =>
            if p.1 = s then (p.1, { p.2 with stateSpace := possibleStates }) else p) }
      else CM.addNode m s .null possibleStates
    (.bool true, setActiveModel e m1)

/-- The `causes` predicate (engine operation: the mechanism is a JS
closure and is passed directly, not through query arguments). -/
def causesM (e : Engine) (cause effect : String) (mech : CM.Mech) :
    JSVal × Engine :=
  match activeModel e with
  | none => (.bool false, e)
  | some m =>
    let m1 := if mhas m.nodes cause then m else CM.addNode m cause
    let m2 := if mhas m1.nodes effect then m1 else CM.addNode m1 effect
    (.bool true, setActiveModel e (CM.addCause m2 cause effect mech))

/-- The `intervene` predicate: force the node's value in the active
Reality's model and propagate.  A domain-validation error thrown during
propagation escapes the call (the partially mutated model is not
carried on the error channel). -/
def intervenePredF (fuel : Nat) (e : Engine) (v state : JSVal) :
    Option (Except JSError (JSVal × Engine)) :=
  match activeModel e with
  | none => some (.ok (.bool false, e))
  | some m =>
    match CM.interveneF fuel m (jsToString v) state with
    | none => none
    | some (some er, _, _) => some (.error er)
    | some (none, m1, _) => some (.ok (.bool true, setActiveModel e m1))

/-- The `queryState` predicate: read
`activeReality.causalModel.nodes.get(variable).state` (a TypeError on a
missing node) and bind it to the target variable. -/
def queryStatePredF (fuel : Nat) (e : Engine) (v target : JSVal) :
    Option (Except JSError (JSVal × Engine)) :=
  match activeModel e with
  | none => some (.ok (.bool false, e))
  | some m =>
    match mget m.nodes (jsToString v) with
    | none => some (.error .typeError)
    | some node =>
      match bindVariableJ fuel e.ctx target node.state with
      | none => none
      | some (.error er) => some (.error er)
      | some (.ok (b, c1)) => some (.ok (.bool b, { e with ctx := c1 }))

/-- The complete list of function-valued property names on a freshly
constructed PrologScript instance, i.e. exactly the goals for which
`typeof this[goal] === 'function'` holds: every predicate registered by
the constructor's initialiser calls (`_initializePredicates`,
`_initializeMathPredicates`, `_initializeWavePredicates`,
`_initializeCounterfactualPredicates`), the class methods and
function-valued class fields, and the function properties inherited
from `Object.prototype`.  (`_initializeUniversalLaws` registers its
rules on `this.universalLaws`, not on `this`, so law names such as
`conservation_of_energy` are not function properties.) -/
def fnProps : List String :=
  ["cons", "head", "tail", "append", "add", "subtract", "multiply",
   "divide", "mod", "greater", "less",
   "computeSum", "computeMultiply", "computeDivide", "computeGreaterThan",
   "computeLessThan", "computeSquare", "computeSqrt", "computePower",
   "computeMod", "computeBetween", "isEven", "isOdd",
   "defineWave", "waveHeight", "findWavePoints", "relatedPoints",
   "phaseDifference",
   "causes", "stateSpace", "assert", "intervene", "queryState",
   "atTime", "inTimeline",
   "constructor", "createReality", "switchReality", "createAgent",
   "addUniversalLaw", "overrideUniversalLaw", "createWave", "simulate",
   "computeAdd", "computeSubtract", "predicate",
   "createCounterfactual", "addTimeStep", "addSemanticRelation",
   "areSemanticallySimilar", "addConstraint", "addMathRule",
   "solveEquation", "unify", "query", "isA", "hasA", "addRule", "infer",
   "ast",
   "_initializePredicates", "_initializeMathPredicates",
   "_initializeUniversalLaws", "_initializeWavePredicates",
   "_initializeCounterfactualPredicates", "_resolveValue",
   "_matchPattern", "_isVariable", "_queryIsA", "_queryHasA",
   "_backtrack", "_hasSolution", "_solutionsEqual", "_evaluateGoal",
   "_substituteArgs", "_evaluateArithmetic", "_matchesRule",
   "_evaluateRuleBody", "_substituteVariables", "_resolveTerm",
   "_bindVariable", "_occursCheck",
   "_parseLambdaToAST", "_standardizeAST", "_convertEsprimaAST",
   "_hashAST", "_compareAST",
   "hasOwnProperty", "isPrototypeOf", "propertyIsEnumerable",
   "toLocaleString", "toString", "valueOf",
   "__defineGetter__", "__defineSetter__", "__lookupGetter__",
   "__lookupSetter__"]

/-- The behaviours of the function properties that the claims
exercise (the list, arithmetic and causal predicates). -/
def predTable (goal : String) : Option PredFn :=
  match goal with
  | "cons" => some consPred
  | "head" => some headPred
  | "tail" => some tailPred
  | "append" => some appendPred
  | "add" => some addPred
  | "subtract" => some subtractPred
  | "multiply" => some multiplyPred
  | "greater" => some greaterPred
  | "less" => some lessPred
  | "assert" => some (fun _ e args => some (.ok (assertPredF e (jsIdx args 0) (jsIdx args 1))))
  | "stateSpace" => some (fun _ e args => some (.ok (stateSpacePredF e (jsIdx args 0) (jsIdx args 1))))
  | "intervene" => some (fun fuel e args => intervenePredF fuel e (jsIdx args 0) (jsIdx args 1))
  | "queryState" => some (fun fuel e args => queryStatePredF fuel e (jsIdx args 0) (jsIdx args 1))
  | _ => none

/-- A function property whose behaviour lies outside the modeled
fragment (float/wave/temporal predicates, predicates taking function
arguments, engine methods, `Object.prototype` built-ins).  Evaluating
through it yields `none` — the same abstention channel as fuel
exhaustion — so no theorem in this development concludes anything about
a query that dispatches to one of them. -/
def unmodeledPred : PredFn := fun _ _ _ => none

/-- The dispatch test of `query` and `_evaluateGoal`:
`typeof this[goal] === 'function'`.  The test itself is complete over
`fnProps`; the returned behaviour is the modeled predicate where one
exists and the abstaining `unmodeledPred` otherwise. -/
def dispatchF (goal : String) : Option PredFn :=
  if fnProps.contains goal then some ((predTable goal).getD unmodeledPred)
  else none

/-- `PrologScript.isA(entity, category)` (the write helper): add the
entity to the engine-global `isA:<category>` set. -/
def isAMethod (e : Engine) (entity category : JSVal) :
    Except JSError (JSVal × Engine) :=
  let key := "isA:" ++ jsToString category
  let e1 :=
    if mhas e.knowledgeBase key then e
    else { e with knowledgeBase := mset e.knowledgeBase key (.setE []) }
  match mget e1.knowledgeBase key with
  | some (.setE xs) =>
    let xs1 := if xs.any (fun x => jsStrictEq x entity) then xs else xs ++ [entity]
    .ok (.bool true, { e1 with knowledgeBase := mset e1.knowledgeBase key (.setE xs1) })
  | some (.plain _) => .error .typeError
  | none => .error .typeError

/-- `PrologScript.hasA(entity, property, value)` (the write helper). -/
def hasAMethod (e : Engine) (entity property value : JSVal) : JSVal × Engine :=
  let key := "hasA:" ++ jsToString entity ++ ":" ++ jsToString property
  (.bool true, { e with knowledgeBase := mset e.knowledgeBase key (.plain value) })

/-- `PrologScript._queryIsA(entity, category)`: membership in the
engine-global category set (`Set.has` on a plain entry is a TypeError). -/
def queryIsAF (e : Engine) (entity category : JSVal) : Except JSError JSVal :=
  let key := "isA:" ++ jsToString category
  match mget e.knowledgeBase key with
  | none => .ok (.bool false)
  | some (.setE xs) => .ok (.bool (xs.any (fun x => jsStrictEq x entity)))
  | some (.plain _) => .error .typeError

/-- `PrologScript._queryHasA(entity, property)`: the stored value, or
`null` when the fact is absent. -/
def queryHasAF (e : Engine) (entity property : JSVal) : JSVal :=
  let key := "hasA:" ++ jsToString entity ++ ":" ++ jsToString property
  match mget e.knowledgeBase key with
  | some (.plain v) => v
  | some (.setE xs) => .jset xs
  | none => .null

/-- One segment-matching pass of `_matchPattern`: `$`-segments bind by
position (two occurrences of the same name must agree), other segments
must match exactly. -/
def matchSegs : List String → List String → List (String × JSVal) →
    Option (List (String × JSVal))
  | [], [], b => some b
  | p :: ps, f :: fs, b =>
    if startsDollar p then
      let vn := dropFirst p
      match mget b vn with
      | some bv => if jsStrictEq bv (.str f) then matchSegs ps fs b else none
      | none => matchSegs ps fs (mset b vn (.str f))
    else if p = f then matchSegs ps fs b else none
  | _, _, _ => none

/-- `PrologScript._matchPattern(pattern, fact)`: equal segment counts,
then position-wise matching; `none` models the JS `false`. -/
def matchPattern (pattern fact : String) : Option (List (String × JSVal)) :=
  let ps := splitColon pattern
  let fs := splitColon fact
  if ps.length = fs.length then matchSegs ps fs [] else none

/-- A solution: a copy of a bindings map. -/
abbrev Solution : Type := List (String × JSVal)

/-- The direct-fact scan of `query`: every knowledge-base entry whose
key matches the query key contributes solutions (one per element for
`Set` values), each solution carrying a `result` binding. -/
def collectFacts (kb : List (String × KBEntry)) (queryKey : String) :
    List Solution :=
  kb.foldl
    (fun acc p =>
      match matchPattern queryKey p.1 with
      | none => acc
      | some bindings =>
        match p.2 with
        | .setE xs => acc ++ xs.map (fun v => mset bindings "result" v)
        | .plain v => acc ++ [mset bindings "result" v])
    []

/-- `PrologScript._substituteArgs(queryArgs, ruleHead)`: positional
binding of the rule head's variable slots. -/
def substituteArgs (queryArgs : List JSVal) (ruleHead : String) : Solution :=
  ((splitColon ruleHead).tail.enum).foldl
    (fun b iv =>
      if iv.1 < queryArgs.length then
        mset b (if startsDollar iv.2 then dropFirst iv.2 else iv.2)
          (jsIdx queryArgs iv.1)
      else b)
    []

/-- Uppercase ASCII letter (the regex class `[A-Z]`). -/
def isUpperCh (c : Char) : Bool := 'A' ≤ c && c ≤ 'Z'

/-- The regex class `[a-zA-Z0-9]`. -/
def isAlnumCh (c : Char) : Bool :=
  ('a' ≤ c && c ≤ 'z') || isUpperCh c || ('0' ≤ c && c ≤ '9')

/-- The replacement for one matched `$Name`:
`bindings.get(varName) || "$" + varName`, with the replacement value
string-coerced. -/
def flushName (b : Solution) (acc : List Char) : List Char :=
  match mget b (String.mk acc) with
  | some v => if truthy v then (jsToString v).data else '$' :: acc
  | none => '$' :: acc

/-- The scanner for `_substituteVariables`'s global regex
`\$([A-Z][a-zA-Z0-9]*)`: the second argument is `none` in ordinary
text, `some acc` while reading a variable name (empty `acc` right after
a `$`). -/
def substGo (b : Solution) : List Char → Option (List Char) → List Char
  | [], none => []
  | [], some acc => if acc.isEmpty then ['$'] else flushName b acc
  | c :: rest, none =>
    if c = '$' then substGo b rest (some [])
    else c :: substGo b rest none
  | c :: rest, some acc =>
    if acc.isEmpty then
      if isUpperCh c then substGo b rest (some [c])
      else if c = '$' then '$' :: substGo b rest (some [])
      else '$' :: c :: substGo b rest none
    else
      if isAlnumCh c then substGo b rest (some (acc ++ [c]))
      else
        flushName b acc ++
          (if c = '$' then substGo b rest (some [])
           else c :: substGo b rest none)

/-- `PrologScript._substituteVariables(pattern, bindings)`. -/
def substituteVariables (pattern : String) (b : Solution) : String :=
  String.mk (substGo b pattern.data none)

/-- `PrologScript._matchesRule(query, args, ruleHead)`: the head's
predicate name equals the goal. -/
def matchesRule (goal ruleHead : String) : Bool :=
  (splitColon ruleHead).headD "" = goal

/-- `PrologScript._solutionsEqual(sol1, sol2)`: same size, and every
key of the first maps to a strictly-equal value in the second (a
missing key reads as `undefined`). -/
def solutionsEqual (s1 s2 : Solution) : Bool :=
  s1.length = s2.length &&
  s1.all (fun p => jsStrictEq p.2 ((mget s2 p.1).getD .undefined))

/-- `PrologScript._hasSolution(results, newSolution)`. -/
def hasSolution (results : List Solution) (sol : Solution) : Bool :=
  results.any (fun r => solutionsEqual r sol)

/-- `Set.prototype.has(term2)` on a relation set of strings. -/
def setHasStr (l : List String) (target : JSVal) : Bool :=
  match target with
  | .str t => l.contains t
  | _ => false

/-- The transitive BFS of `areSemanticallySimilar` with its visited
set. -/
def bfsSimF : Nat → List (String × List String) → JSVal → List String →
    List String → Option Bool
  | 0, _, _, _, _ => none
  | fuel + 1, rels, target, visited, queue =>
    match queue with
    | [] => some false
    | cur :: qs =>
      if visited.contains cur then bfsSimF fuel rels target visited qs
      else
        let visited1 := visited ++ [cur]
        match mget rels cur with
        | some related =>
          if setHasStr related target then some true
          else
            bfsSimF fuel rels target visited1
              (qs ++ related.filter (fun t => !visited1.contains t))
        | none => bfsSimF fuel rels target visited1 qs

/-- `PrologScript.areSemanticallySimilar(term1, term2)`: strict
equality, then the direct relation, then the BFS.  A non-string first
term can only be similar to itself (its BFS finds no relations). -/
def similarF (fuel : Nat) (rels : List (String × List String))
    (t1 t2 : JSVal) : Option Bool :=
  if jsStrictEq t1 t2 then some true
  else
    match t1 with
    | .str s1 =>
      match mget rels s1 with
      | some direct =>
        if setHasStr direct t2 then some true else bfsSimF fuel rels t2 [] [s1]
      | none => bfsSimF fuel rels t2 [] [s1]
    | _ => some false

/-- A split-string segment as the JS value it denotes (`undefined` when
out of range). -/
def optStr : Option String → JSVal
  | some s => .str s
  | none => .undefined

/-- The semantic fallback scan of the `hasA` condition: the first
knowledge-base key with the `hasA:<entity>:` prefix whose stored
property is semantically similar to the requested one. -/
def scanSemGo (fuel : Nat) (kb : List (String × KBEntry))
    (rels : List (String × List String)) (entity : String)
    (reqProp : Option String) :
    List (String × KBEntry) → Option (Option KBEntry)
  | [] => some none
  | (factKey, _) :: rest =>
    if strPref ("hasA:" ++ entity ++ ":") factKey then
      match similarF fuel rels (optStr (partAt (splitColon factKey) 2))
          (optStr reqProp) with
      | none => none
      | some true => some (mget kb factKey)
      | some false => scanSemGo fuel kb rels entity reqProp rest
    else scanSemGo fuel kb rels entity reqProp rest

/-- The binding-merge loop at the top of `_evaluateRuleBody`:
non-`$`-string values overwrite the context entry; unresolved
`$`-placeholders are written only if the key is absent. -/
def mergeBindings (c : UCtx) (bindings : Solution) : UCtx :=
  let nb := bindings.foldl
    (fun cb p =>
      match p.2 with
      | .str s =>
        if startsDollar s then
          if mhas cb p.1 then cb else mset cb p.1 p.2
        else mset cb p.1 p.2
      | _ => mset cb p.1 p.2)
    c.bindings
  { c with bindings := nb }

/-- The `hasA:` branch of a rule-body condition: direct lookup, then
the semantic fallback scan; booleans compare against the literal
`'true'`; other values compare semantically or bind a trailing
`$`-variable into the local bindings map. -/
def hasACondF (fuel : Nat) (e : Engine) (parts : List String) (b : Solution) :
    Option (Except JSError (Bool × Solution)) :=
  let entity := (partAt parts 1).getD "undefined"
  let reqProp := partAt parts 2
  let expected := partAt parts 3
  let key := "hasA:" ++ entity ++ ":" ++ ((partAt parts 2).getD "undefined")
  let valueO : Option (Option KBEntry) :=
    match mget e.knowledgeBase key with
    | some v => some (some v)
    | none =>
      scanSemGo fuel e.knowledgeBase e.semanticRelations entity reqProp
        e.knowledgeBase
  match valueO with
  | none => none
  | some none => some (.ok (false, b))
  | some (some entry) =>
    let valueJ : JSVal :=
      match entry with
      | .plain v => v
      | .setE xs => .jset xs
    match valueJ with
    | .bool bv =>
      match expected with
      | some ev =>
        if !(ev == "") && !startsDollar ev then
          some (.ok (bv == (ev == "true"), b))
        else some (.ok (true, b))
      | none => some (.ok (true, b))
    | _ =>
      match expected with
      | some ev =>
        if !(ev == "") && !startsDollar ev then
          match similarF fuel e.semanticRelations valueJ (.str ev) with
          | none => none
          | some sb => some (.ok (sb, b))
        else if !(ev == "") && startsDollar ev then
          some (.ok (true, mset b (dropFirst ev) valueJ))
        else some (.ok (true, b))
      | none => some (.ok (true, b))

/-- The `isA:` branch of a rule-body condition. -/
def isACondF (e : Engine) (parts : List String) :
    Except JSError Bool :=
  let key := "isA:" ++ ((partAt parts 2).getD "undefined")
  match mget e.knowledgeBase key with
  | some (.setE xs) =>
    let target := optStr (partAt parts 1)
    .ok (xs.any (fun x => jsStrictEq x target))
  | some (.plain _) => .error .typeError
  | none => .ok false

/-- The AST-extraction pass over the computed solutions at the end of
`query`: whenever a solution's `result` is a Term carrying an AST, the
loop calls `.isVariable()` on the AST's plain `left` object — a
TypeError; otherwise the loop is a no-op. -/
def astExtract (sols : List Solution) : Except JSError (List Solution) :=
  if sols.any (fun sol =>
      match mget sol "result" with
      | some (.term t) => t.ast.isSome
      | _ => false) then
    .error .typeError
  else .ok sols

/-- The `bindings.set(arg.slice(1), result)` loop of the isA/hasA
result conversion (`slice` on a Term-object variable is a TypeError). -/
def argsBindings (args : List JSVal) (result : JSVal) :
    Except JSError (List (String × JSVal)) :=
  args.foldl
    (fun acc arg =>
      match acc with
      | .error er => .error er
      | .ok b =>
        if isVariableJ arg then
          match arg with
          | .str s => .ok (mset b (dropFirst s) result)
          | _ => .error .typeError
        else .ok b)
    (.ok [])

/-- A pending computation of the engine's mutually recursive
query/rule-resolution cluster, defunctionalised so the whole cluster is
one structurally fuel-recursive function (each constructor corresponds
to one JS function): `query`, the fact/rule tail of `query`, the
`while (findSolution())` loop, `findSolution`, `_backtrack`,
`_evaluateGoal`, its rule loop, `_evaluateRuleBody` (merge then
conditions), the conditions fold, and a single condition. -/
inductive Req where
  | query (goal : String) (args : List JSVal)
  | factRule (goal : String) (args : List JSVal)
  | loop (goal : String) (args : List JSVal) (results : List Solution)
  | findSol (goal : String) (args : List JSVal) (results : List Solution)
  | btrack (results : List Solution)
  | evalGoal (goal : String) (args : List JSVal)
  | tryRules (goal : String) (args : List JSVal)
      (rs : List (String × List Cond))
  | ruleBody (conds : List Cond) (b : Solution) (queryTerm : String)
  | conds (cs : List Cond) (b : Solution) (queryTerm : String)
  | cond1 (c : Cond) (b : Solution) (queryTerm : String)

/-- The result of a `Req` computation: a raw JS value (for `query`), a
solutions list (for the loop), a boolean (for goal evaluation), a
boolean with the loop's solutions (for `findSolution`), or a boolean
with the local rule bindings (for rule-body evaluation). -/
inductive Res where
  | val (v : JSVal)
  | sols (xs : List Solution)
  | bool (b : Bool)
  | boolSols (b : Bool) (xs : List Solution)
  | boolBind (b : Bool) (bindings : Solution)

/-- Package an isA/hasA result per the result-conversion block of
`query`: truthy results with variable arguments are converted to a
bindings map (every variable bound to the whole result), otherwise the
raw result is returned. -/
def isaHasaWrap (e : Engine) (args : List JSVal)
    (result : Except JSError JSVal) : Option (Except JSError (Res × Engine)) :=
  match result with
  | .error er => some (.error er)
  | .ok r =>
    if truthy r && args.any isVariableJ then
      match argsBindings args r with
      | .error er => some (.error er)
      | .ok b => some (.ok (.val (.jmap b), e))
    else some (.ok (.val r, e))

/-- The engine's query/resolution cluster (`PrologScript.query` and the
helpers it is mutually recursive with), as one fuel-indexed function.
`none` is fuel exhaustion — the JS functions can genuinely diverge
(see the recursion-limit claim). -/
def runF : Nat → Engine → Req → Option (Except JSError (Res × Engine))
  | 0, _, _ => none
  | fuel + 1, e, req =>
    match req with
    | .query goal args =>
      match e.active with
      | none => some (.error (.err "No active reality"))
      | some _ =>
        let predicateType := (splitColon goal).headD ""
        if predicateType == "isA" then
          isaHasaWrap e args (queryIsAF e (jsIdx args 0) (jsIdx args 1))
        else if predicateType == "hasA" then
          isaHasaWrap e args (.ok (queryHasAF e (jsIdx args 0) (jsIdx args 1)))
        else
          match dispatchF goal with
          | some f =>
            match incrementDepth e.ctx with
            | .error er => some (.error er)
            | .ok c1 =>
              match f fuel { e with ctx := c1 } args with
              | none => none
              | some (.error er) => some (.error er)
              | some (.ok (success, e1)) =>
                let e2 := { e1 with ctx := decrementDepth e1.ctx }
                if truthy success && !e2.ctx.bindings.isEmpty then
                  some (.ok (.val (.jmap e2.ctx.bindings), e2))
                else some (.ok (.val success, e2))
          | none =>
            let nodeHit :=
              match activeModel e with
              | some m => mget m.nodes goal
              | none => none
            match nodeHit with
            | some node =>
              if args.isEmpty then some (.ok (.val node.state, e))
              else if args.length == 1 && isVariableJ (jsIdx args 0) then
                match jsIdx args 0 with
                | .str s =>
                  some (.ok (.val (.jmap [(dropFirst s, node.state)]), e))
                | _ => some (.error .typeError)
              else runF fuel e (.factRule goal args)
            | none => runF fuel e (.factRule goal args)
    | .factRule goal args =>
      let queryKey := goal ++ ":" ++ joinColon (args.map elemStr)
      let e1 := { e with ctx := freshCtx }
      let factResults := collectFacts e1.knowledgeBase queryKey
      match incrementDepth e1.ctx with
      | .error er => some (.error er)
      | .ok c1 =>
        match runF fuel { e1 with ctx := c1 } (.loop goal args factResults) with
        | none => none
        | some (.error er) => some (.error er)
        | some (.ok (.sols sols, e2)) =>
          let e3 := { e2 with ctx := decrementDepth e2.ctx }
          if sols.isEmpty then some (.ok (.val (.bool false), e3))
          else
            match astExtract sols with
            | .error er => some (.error er)
            | .ok sols1 =>
              if args.any isVariableJ then
                if sols1.length == 1 then
                  some (.ok (.val (.jmap (sols1.headD [])), e3))
                else some (.ok (.val (.list (sols1.map JSVal.jmap)), e3))
              else some (.ok (.val (.bool true), e3))
        | some (.ok (_, _)) => none
    | .loop goal args results =>
      match runF fuel e (.findSol goal args results) with
      | none => none
      | some (.error er) => some (.error er)
      | some (.ok (.boolSols b results1, e1)) =>
        if b then
          if e1.ctx.maxDepth ≤ results1.length then
            some (.error (.err "Maximum number of solutions exceeded"))
          else runF fuel e1 (.loop goal args results1)
        else some (.ok (.sols results1, e1))
      | some (.ok (_, _)) => none
    | .findSol goal args results =>
      match runF fuel e (.evalGoal goal args) with
      | none => none
      | some (.error er) => some (.error er)
      | some (.ok (.bool b, e1)) =>
        if b then
          let solution := e1.ctx.bindings
          if !hasSolution results solution then
            some (.ok (.boolSols true (results ++ [solution]), e1))
          else runF fuel e1 (.btrack results)
        else runF fuel e1 (.btrack results)
      | some (.ok (_, _)) => none
    | .btrack results =>
      let bt := ctxBacktrack e.ctx
      let e1 := { e with ctx := bt.2 }
      match bt.1 with
      | none => some (.ok (.boolSols false results, e1))
      | some ga =>
        match runF fuel e1 (.evalGoal ga.1 ga.2) with
        | none => none
        | some (.error er) => some (.error er)
        | some (.ok (.bool b, e2)) => some (.ok (.boolSols b results, e2))
        | some (.ok (_, _)) => none
    | .evalGoal goal args =>
      match dispatchF goal with
      | some f =>
        match f fuel e args with
        | none => none
        | some (.error er) => some (.error er)
        | some (.ok (v, e1)) => some (.ok (.bool (truthy v), e1))
      | none =>
        let matching := e.rules.filter (fun p => matchesRule goal p.1)
        runF fuel e (.tryRules goal args matching)
    | .tryRules goal args rs =>
      match rs with
      | [] => some (.ok (.bool false, e))
      | (head, body) :: rest =>
        let bindings := substituteArgs args head
        match body with
        | [] => some (.error .typeError)
        | first :: restConds =>
          match runF fuel e (.ruleBody [first] bindings goal) with
          | none => none
          | some (.error er) => some (.error er)
          | some (.ok (.boolBind b1 bindings1, e1)) =>
            if b1 then
              match runF fuel e1 (.ruleBody restConds bindings1 goal) with
              | none => none
              | some (.error er) => some (.error er)
              | some (.ok (.boolBind b2 _, e2)) =>
                if b2 then some (.ok (.bool true, e2))
                else runF fuel e2 (.tryRules goal args rest)
              | some (.ok (_, _)) => none
            else runF fuel e1 (.tryRules goal args rest)
          | some (.ok (_, _)) => none
    | .ruleBody conds b queryTerm =>
      let e1 := { e with ctx := mergeBindings e.ctx b }
      runF fuel e1 (.conds conds b queryTerm)
    | .conds cs b queryTerm =>
      match cs with
      | [] => some (.ok (.boolBind true b, e))
      | cnd :: rest =>
        match runF fuel e (.cond1 cnd b queryTerm) with
        | none => none
        | some (.error er) => some (.error er)
        | some (.ok (.boolBind bb b1, e1)) =>
          if bb then runF fuel e1 (.conds rest b1 queryTerm)
          else some (.ok (.boolBind false b1, e1))
        | some (.ok (_, _)) => none
    | .cond1 cnd b queryTerm =>
      match cnd with
      | .fn f => some (.ok (.boolBind (f e.ctx.bindings) b, e))
      | .s pattern =>
        let substituted := substituteVariables pattern b
        let parts := splitColon substituted
        let p0 := parts.headD ""
        if p0 == "isA" then
          match isACondF e parts with
          | .error er => some (.error er)
          | .ok bb => some (.ok (.boolBind bb b, e))
        else if p0 == "hasA" then
          match hasACondF fuel e parts b with
          | none => none
          | some (.error er) => some (.error er)
          | some (.ok (bb, b1)) => some (.ok (.boolBind bb b1, e))
        else if p0 == "ancestor" then
          match runF fuel e (.query p0 (parts.tail.map JSVal.str)) with
          | none => none
          | some (.error er) => some (.error er)
          | some (.ok (.val r, e1)) => some (.ok (.boolBind (truthy r) b, e1))
          | some (.ok (_, _)) => none
        else some (.ok (.boolBind false b, e))

/-- `PrologScript.query(goal, ...args)`. -/
def queryF (fuel : Nat) (e : Engine) (goal : String) (args : List JSVal) :
    Option (Except JSError (JSVal × Engine)) :=
  match runF fuel e (.query goal args) with
  | none => none
  | some (.error er) => some (.error er)
  | some (.ok (.val v, e1)) => some (.ok (v, e1))
  | some (.ok (_, e1)) => some (.ok (.undefined, e1))

/-- Whether a `query` call falls through to the generic fact/rule
resolution path: the goal is not an isA/hasA key, not a function-valued
property of the engine (`dispatchF` tests membership in the complete
`fnProps` list), and does not short-circuit on a causal-model node
read (zero arguments, or a single variable argument). -/
def canReachFactRule (e : Engine) (goal : String) (args : List JSVal) : Bool :=
  let predicateType := (splitColon goal).headD ""
  !(predicateType == "isA") && !(predicateType == "hasA") &&
  (dispatchF goal).isNone &&
  (match activeModel e with
   | some m =>
     match mget m.nodes goal with
     | some _ =>
       !args.isEmpty && !(args.length == 1 && isVariableJ (jsIdx args 0))
     | none => true
   | none => true)

/-- The result value of a query, discarding the final engine (for
stating concrete evaluation facts). -/
def resVal (r : Option (Except JSError (JSVal × Engine))) :
    Option (Except JSError JSVal) :=
  r.map (fun x => x.map Prod.fst)

end PS

namespace VarJS

/-- A primitive JS value in the standalone Variable.js unifier. -/
inductive Prim where
  | num (n : Int)
  | str (s : String)
  | bool (b : Bool)
  | null
  deriving DecidableEq

/-- A term of the standalone `unify` in Variable.js: a `Variable`
object (identified by name; the object's `binding` field is modelled as
synchronised with the context entry under its name), a primitive, or an
array. -/
inductive VTerm where
  | vr (name : String)
  | prim (p : Prim)
  | arr (xs : List VTerm)

/-- The binding context (`context.bindings`). -/
abbrev VCtx := List (String × VTerm)

/-- The constraint sets attached to `Variable` objects
(`_satisfiesConstraints`), as a name-indexed family of pure
predicates. -/
def CEnv : Type := String → VTerm → Bool

/-- JS `===` on the values the unifier compares: primitives by value;
`Variable` objects by name (same-named objects are identified in this
model); arrays are distinct heap objects. -/
def vStrictEq : VTerm → VTerm → Bool
  | .prim a, .prim b => a == b
  | .vr a, .vr b => a == b
  | _, _ => false

/-- JS truthiness of a stored binding value. -/
def vTruthy : VTerm → Bool
  | .prim (.num n) => n != 0
  | .prim (.str s) => s != ""
  | .prim (.bool b) => b
  | .prim .null => false
  | _ => true

/-- `Variable.getValue(context)`:
`context.bindings.get(name) || null` — a falsy stored value reads back
as `null`. -/
def getValueC (ctx : VCtx) (y : String) : VTerm :=
  match mget ctx y with
  | some tv => if vTruthy tv then tv else .prim .null
  | none => .prim .null

/-- `Variable.occursIn(term, context)`.  The method's first step is
`term.isVariable()`, which only `Variable` objects implement: for an
array or a primitive (number, string, boolean, `null`) that call
throws a `TypeError`, so the `Array.isArray(term)` branch and the
final `return false` of the source are unreachable dead code.  A
variable term is compared by name, then chased through its context
binding (`getValue`, with the `|| null` falsy quirk). -/
def voccursF : Nat → String → VCtx → VTerm → Option (Except JSError Bool)
  | 0, _, _, _ => none
  | fuel + 1, v, ctx, t =>
    match t with
    | .vr y =>
      if y = v then some (.ok true)
      else if mhas ctx y then voccursF fuel v ctx (getValueC ctx y)
      else some (.ok false)
    | _ => some (.error .typeError)

/-- `Variable.bind(value, context)`: an unbound variable checks its
constraints and binds; a bound one succeeds only if the existing
binding compares `===` to the new value. -/
def vbind (cenv : CEnv) (ctx : VCtx) (name : String) (value : VTerm) :
    Bool × VCtx :=
  match mget ctx name with
  | none =>
    if cenv name value then (true, mset ctx name value) else (false, ctx)
  | some existing => (vStrictEq existing value, ctx)

/-- The standalone `unify(term1, term2, context)` of Variable.js over a
worklist of pairs (array element unification is JS `every`: sequential,
short-circuiting, keeping earlier bindings): variable pairs chase
bindings and bind variable-to-variable; a single variable side runs the
occurs check before binding — and since `occursIn` throws a `TypeError`
on every non-Variable term, any variable-to-nonvariable pair throws
rather than binding (the `return false` after a positive occurs check
is dead code); arrays unify element-wise; anything else compares
`===`. -/
def vunifyF : Nat → CEnv → VCtx → List (VTerm × VTerm) →
    Option (Except JSError (Bool × VCtx))
  | _, _, ctx, [] => some (.ok (true, ctx))
  | 0, _, _, _ => none
  | fuel + 1, cenv, ctx, (t1, t2) :: rest =>
    match t1, t2 with
    | .vr a, .vr b =>
      if a = b then vunifyF fuel cenv ctx rest
      else if mhas ctx a then
        vunifyF fuel cenv ctx ((getValueC ctx a, t2) :: rest)
      else if mhas ctx b then
        vunifyF fuel cenv ctx ((t1, getValueC ctx b) :: rest)
      else
        match vbind cenv ctx a t2 with
        | (true, ctx1) => vunifyF fuel cenv ctx1 rest
        | (false, ctx1) => some (.ok (false, ctx1))
    | .vr a, _ =>
      match voccursF (fuel + 1) a ctx t2 with
      | none => none
      | some (.error er) => some (.error er)
      | some (.ok true) => some (.ok (false, ctx))
      | some (.ok false) =>
        match vbind cenv ctx a t2 with
        | (true, ctx1) => vunifyF fuel cenv ctx1 rest
        | (false, ctx1) => some (.ok (false, ctx1))
    | _, .vr b =>
      match voccursF (fuel + 1) b ctx t1 with
      | none => none
      | some (.error er) => some (.error er)
      | some (.ok true) => some (.ok (false, ctx))
      | some (.ok false) =>
        match vbind cenv ctx b t1 with
        | (true, ctx1) => vunifyF fuel cenv ctx1 rest
        | (false, ctx1) => some (.ok (false, ctx1))
    | .arr xs, .arr ys =>
      if xs.length = ys.length then vunifyF fuel cenv ctx (xs.zip ys ++ rest)
      else some (.ok (false, ctx))
    | .prim p, .prim q =>
      if p = q then vunifyF fuel cenv ctx rest else some (.ok (false, ctx))
    | _, _ => some (.ok (false, ctx))

/-- Does a term resolve, through the variable binding chain alone, to
the variable `v` itself?  (`unify(v, t)` succeeds trivially exactly in
this case.) -/
def vchainEq : Nat → VCtx → String → VTerm → Option Bool
  | 0, _, _, _ => none
  | fuel + 1, ctx, v, .vr y =>
    if y = v then some true
    else if mhas ctx y then vchainEq fuel ctx v (getValueC ctx y)
    else some false
  | _ + 1, _, _, _ => some false

end VarJS

/-!  Concrete scenario values used by witnesses and counterexamples. -/

/-- A model with one intervention and no nodes (witness input). -/
def cmW : CM.CModel := ⟨[], [], [("a", .num 1)]⟩

/-- An engine with one Reality, a declared two-value domain for the
node `light`, and then `assert("light", "purple")` — the assertion
writes a value outside the declared domain. -/
def ePurple : PS.Engine :=
  let e := PS.createReality PS.initEngine "D"
  let e1 := (PS.stateSpacePredF e (.str "light")
    (.list [.str "on", .str "off"])).2
  (PS.assertPredF e1 (.str "light") (.str "purple")).2

/-- The state of the node `light` in the active Reality of an engine
(`undefined` when there is no active Reality or no such node). -/
def lightState (e : PS.Engine) : JSVal :=
  match PS.activeModel e with
  | some m =>
    match mget m.nodes "light" with
    | some info => info.state
    | none => .undefined
  | none => .undefined

/-- An engine with one Reality (for predicate-path queries). -/
def eLogic : PS.Engine := PS.createReality PS.initEngine "Logic"

/-- The engine `query("add", 5, 3, "$Result")` leaves behind on
`eLogic`: the predicate path does not rebuild the context, so the
binding `Result ↦ Term(8)` persists (`c7_counterexample` proves the
query indeed produces this engine). -/
def eAfterAdd : PS.Engine :=
  { eLogic with ctx :=
      { bindings := [("Result", .term (.mk (.num 8) none none))],
        choicePoints := [], depth := 0, maxDepth := 100 } }

/-- Two realities with an `isA` fact asserted while the first was
active. -/
def eIsaA : PS.Engine :=
  let e := PS.createReality (PS.createReality PS.initEngine "RA") "RB"
  match PS.isAMethod ((PS.switchReality e "RA").2) (.str "socrates")
      (.str "human") with
  | .ok (_, e1) => e1
  | .error _ => e

/-- The same engine switched to the second Reality. -/
def eIsaB : PS.Engine := (PS.switchReality eIsaA "RB").2

/-- An engine with a directly self-recursive `ancestor` rule. -/
def eRec : PS.Engine :=
  PS.addRule (PS.createReality PS.initEngine "W")
    "ancestor:$X:$Y" [PS.Cond.s "ancestor:$X:$Y"]

/-- The engine after the first of the two assertions of the
reality-isolation scenario: realities `nameA`, `nameB`; switch to
`nameA`; assert `f = v1`. -/
def c3Half (nameA nameB f : String) (v1 : JSVal) : PS.Engine :=
  let e := PS.createReality (PS.createReality PS.initEngine nameA) nameB
  (PS.assertPredF ((PS.switchReality e nameA).2) (.str f) v1).2

/-- The reality-isolation scenario, asserting in `nameA` first:
create both realities, assert `f = v1` in `nameA`, then `f = v2` in
`nameB`. -/
def c3Engine (nameA nameB f : String) (v1 v2 : JSVal) : PS.Engine :=
  let e1 := c3Half nameA nameB f v1
  (PS.assertPredF ((PS.switchReality e1 nameB).2) (.str f) v2).2

/-- The reality-isolation scenario with the assertions in the other
order: create both realities, assert `f = v2` in `nameB`, then
`f = v1` in `nameA`. -/
def c3EngineRev (nameA nameB f : String) (v1 v2 : JSVal) : PS.Engine :=
  let e := PS.createReality (PS.createReality PS.initEngine nameA) nameB
  let e1 := (PS.assertPredF ((PS.switchReality e nameB).2) (.str f) v2).2
  (PS.assertPredF ((PS.switchReality e1 nameA).2) (.str f) v1).2

/-- The switch/light causal model of the repository's counterfactual
test: `light` has state `off`, and `switch` causes `light` through the
mechanism `on ↦ on, otherwise off`. -/
def mLight : CM.CModel :=
  CM.addCause (CM.addNode CM.emptyModel "light" (.str "off"))
    "switch" "light"
    (fun s => if jsStrictEq s (.str "on") then .str "on" else .str "off")

/-- A counterfactual forcing `switch = on`. -/
def cfOn : CFm.CFState := ⟨[("switch", .str "on")], []⟩

/-- A model whose domain for `light` rejects the mechanism output, to
exercise the error path of `compute()`. -/
def mBad : CM.CModel :=
  CM.addCause
    (CM.addNode (CM.addNode CM.emptyModel "light" (.str "off")
        (.list [.str "off"])) "switch" .null)
    "switch" "light"
    (fun _ => .str "on")

/-- A two-node causal graph with a mechanism cycle `A → B → A` (the
cycle-safety scenario of the spec). -/
def cmAB : CM.CModel :=
  CM.addCause (CM.addCause CM.emptyModel "A" "B" (fun s => s))
    "B" "A" (fun s => s)

/-- An engine with one Reality in which `gravity = strong` was
asserted. -/
def eGrav : PS.Engine :=
  (PS.assertPredF (PS.createReality PS.initEngine "R")
    (.str "gravity") (.str "strong")).2

/-- The numeric value a query binding denotes, if any: a plain number,
or a Term whose resolved value is a number. -/
def numOfBinding : JSVal → Option Int
  | .num n => some n
  | .term t =>
    match (PS.resolveTermP t).value with
    | .num n => some n
    | _ => none
  | _ => none

/-- Modelled from the spec sentence for the third `add` query: the
result is a binding map in which `X + Y` equals 10 — the returned
bindings give `X` and `Y` numeric values summing to 10. -/
def c9SumHolds (r : Option (Except JSError JSVal)) : Bool :=
  match r with
  | some (.ok (.jmap m)) =>
    match mget m "X", mget m "Y" with
    | some x, some y =>
      match numOfBinding x, numOfBinding y with
      | some a, some b => a + b == 10
      | _, _ => false
    | _, _ => false
  | _ => false

/-- Two node lists agree on keys and on every non-state field, entry
by entry (propagation only ever rewrites node states in place). -/
def nodeShapeEq (p q : String × CM.CNode) : Prop :=
  p.1 = q.1 ∧ p.2.stateSpace = q.2.stateSpace ∧
  p.2.parents = q.2.parents ∧ p.2.children = q.2.children

/-- Entry-wise shape agreement of two node lists. -/
def SameShape (a b : List (String × CM.CNode)) : Prop :=
  List.Forall₂ nodeShapeEq a b

/-!  Generic association-list lemmas. -/

theorem mget_map_set_same {α : Type} (l : List (String × α)) (k : String)
    (v : α) (h : ∃ q ∈ l, q.1 = k) :
    mget (l.map (fun p => if p.1 = k then (k, v) else p)) k = some v := by
  induction l with
  | nil => rcases h with ⟨q, hq, _⟩; cases hq
  | cons p rest ih =>
    by_cases hp : p.1 = k
    · simp [List.map_cons, mget, hp]
    · simp only [List.map_cons, mget, hp, if_false]
      refine ih ?_
      rcases h with ⟨q, hq, hqk⟩
      rcases List.mem_cons.mp hq with h1 | h2
      · exact absurd (h1 ▸ hqk) hp
      · exact ⟨q, h2, hqk⟩

theorem mget_map_set_ne {α : Type} (l : List (String × α)) (k k' : String)
    (v : α) (h : k' ≠ k) :
    mget (l.map (fun p => if p.1 = k then (k, v) else p)) k' = mget l k' := by
  induction l with
  | nil => rfl
  | cons p rest ih =>
    simp only [List.map_cons, mget]
    by_cases hp : p.1 = k
    · rw [if_pos hp]
      rw [if_neg (show ¬((k, v).1 = k') from fun hh => h hh.symm),
        if_neg (show ¬(p.1 = k') from fun hh => h (by rw [← hh]; exact hp))]
      exact ih
    · rw [if_neg hp]
      by_cases hq : p.1 = k'
      · rw [if_pos hq, if_pos hq]
      · rw [if_neg hq, if_neg hq]
        exact ih

theorem mget_append_single {α : Type} (l : List (String × α))
    (k k' : String) (v : α) (h : k' ≠ k) :
    mget (l ++ [(k, v)]) k' = mget l k' := by
  induction l with
  | nil =>
    simp only [List.nil_append, mget]
    rw [if_neg (fun hh : k = k' => h hh.symm)]
  | cons p rest ih =>
    simp only [List.cons_append, mget]
    by_cases hq : p.1 = k'
    · rw [if_pos hq, if_pos hq]
    · rw [if_neg hq, if_neg hq]
      exact ih

theorem mget_append_single_self {α : Type} (l : List (String × α))
    (k : String) (v : α) (h : ∀ q ∈ l, q.1 ≠ k) :
    mget (l ++ [(k, v)]) k = some v := by
  induction l with
  | nil => simp [mget]
  | cons p rest ih =>
    simp only [List.cons_append, mget]
    rw [if_neg (h p (List.mem_cons_self p rest))]
    exact ih (fun q hq => h q (List.mem_cons_of_mem p hq))

theorem mget_mset_self {α : Type} (l : List (String × α)) (k : String)
    (v : α) : mget (mset l k v) k = some v := by
  unfold mset
  by_cases hr : l.any (fun q => q.1 = k)
  · rw [if_pos hr]
    refine mget_map_set_same l k v ?_
    simpa using hr
  · rw [if_neg hr]
    refine mget_append_single_self l k v ?_
    intro q hq hqk
    exact hr (List.any_eq_true.mpr ⟨q, hq, by simpa using hqk⟩)

theorem mget_mset_ne {α : Type} (l : List (String × α)) (k k' : String)
    (v : α) (h : k' ≠ k) : mget (mset l k v) k' = mget l k' := by
  unfold mset
  by_cases hr : l.any (fun q => q.1 = k)
  · rw [if_pos hr]
    exact mget_map_set_ne l k k' v h
  · rw [if_neg hr]
    exact mget_append_single l k k' v h

/-!  The unsigned hash loop agrees with the literal signed
transcription of `_hashAST`. -/

theorem hashStep_equiv (hu c : Nat) :
    PS.hashStep (PS.signedOf hu) c = PS.signedOf (PS.hashStepN hu c) := by
  unfold PS.hashStep PS.i32 PS.hashStepN PS.signedOf
  split_ifs <;> push_cast [Int.natCast_mod] <;> omega

theorem hashFold_equiv (cs : List Char) : ∀ hu : Nat,
    cs.foldl (fun h ch => PS.hashStep h ch.toNat) (PS.signedOf hu) =
    PS.signedOf (cs.foldl (fun h ch => PS.hashStepN h ch.toNat) hu) := by
  induction cs with
  | nil => intro hu; rfl
  | cons c rest ih =>
    intro hu
    simp only [List.foldl]
    rw [hashStep_equiv]
    exact ih _

theorem hashString_eq_spec (s : String) :
    PS.hashString s = PS.hashStringSpec s := by
  unfold PS.hashString PS.hashStringSpec PS.hashStringN
  have h0 : PS.signedOf 0 = (0 : Int) := rfl
  rw [← hashFold_equiv s.data 0, h0]

/-!  Claim C10 — `getState` totality and intervention precedence. -/

/-- C10: for every causal model and every name, `getState` is total:
when the name has no active intervention and is not a node, it returns
`null` rather than throwing; and the intervention check precedes the
node lookup — an active intervention is returned even for a name that
is not a node. -/
theorem c10_getState_total (m : CM.CModel) (n : String) :
    (mget m.interventions n = none → mget m.nodes n = none →
      CM.getState m n = JSVal.null) ∧
    (∀ v, mget m.interventions n = some v → CM.getState m n = v) := by
  constructor
  · intro hi hn
    simp [CM.getState, hi, hn]
  · intro v hi
    simp [CM.getState, hi]

/-- C10 witness: on a model whose only entry is an intervention on
`a`, `getState` returns `null` for the unknown `b` and the intervention
value for the non-node `a`. -/
theorem c10_witness :
    CM.getState cmW "b" = JSVal.null ∧ CM.getState cmW "a" = JSVal.num 1 :=
  ⟨(c10_getState_total cmW "b").1 rfl rfl,
   (c10_getState_total cmW "a").2 (.num 1) rfl⟩

/-!  Claim C6 — domain validation. -/

/-- C6 (amended): mechanism propagation honours a declared state-space
domain — `_updateNodeState` accepts a new state exactly when it is a
member of the declared domain list, updating the node in place, and
otherwise rejects it with an error and no mutation; but the `assert`
predicate and `intervene` assign directly and bypass this validation
(see the counterexample). -/
theorem c6_updateNodeState_domain (m : CM.CModel) (node : String)
    (v : JSVal) (info : CM.CNode) (xs : List JSVal)
    (hn : mget m.nodes node = some info) (hs : info.stateSpace = .list xs) :
    (xs.any (fun s => jsStrictEq s v) = true →
      CM.updateNodeState m node v =
        .ok { m with nodes := CM.setNodeState m.nodes node v }) ∧
    (xs.any (fun s => jsStrictEq s v) = false →
      CM.updateNodeState m node v =
        .error (.err ("Invalid state " ++ jsToString v ++ " for node " ++ node))) := by
  constructor
  · intro ha
    simp [CM.updateNodeState, hn, hs, truthy, ha]
  · intro ha
    simp [CM.updateNodeState, hn, hs, truthy, ha]

/-- C6 witness: on `ePurple`'s model, updating `light` to `on` is
accepted and to `purple` is rejected. -/
theorem c6_witness :
    (match PS.activeModel ePurple with
     | some m => CM.updateNodeState m "light" (.str "purple") =
         .error (.err "Invalid state purple for node light") ∧
         CM.updateNodeState m "light" (.str "on") =
         .ok { m with nodes := CM.setNodeState m.nodes "light" (.str "on") }
     | none => False) := by
  have h := c6_updateNodeState_domain
    ((PS.activeModel ePurple).getD CM.emptyModel) "light"
  constructor
  · exact (h (.str "purple") ⟨.str "purple", .list [.str "on", .str "off"], [], []⟩
      [.str "on", .str "off"] rfl rfl).2 rfl
  · exact (h (.str "on") ⟨.str "purple", .list [.str "on", .str "off"], [], []⟩
      [.str "on", .str "off"] rfl rfl).1 rfl

/-- C6 counterexample: the claim that *every* state-setting operation
validates the domain is false — after declaring the domain
`["on", "off"]` for `light`, `assert("light", "purple")` succeeds
(returns `true`, no error) and leaves the node state `purple`, outside
the domain. -/
theorem c6_counterexample :
    lightState ePurple = JSVal.str "purple" ∧
    (PS.assertPredF
      ((PS.stateSpacePredF (PS.createReality PS.initEngine "D")
        (.str "light") (.list [.str "on", .str "off"])).2)
      (.str "light") (.str "purple")).1 = JSVal.bool true ∧
    ([JSVal.str "on", JSVal.str "off"].any
      (fun s => jsStrictEq s (.str "purple")) = false) := by
  refine ⟨rfl, rfl, rfl⟩

/-!  Claim C9 — bidirectional arithmetic through `add`. -/

/-- C9 counterexample: the claim that
`query("add", "$X", "$Y", 10)` yields bindings in which `X + Y`
equals 10 is false — the returned binding map binds `X` and `Y` to
their own unresolved variable terms (no numeric values at all). -/
theorem c9_counterexample :
    c9SumHolds (PS.resVal
      (PS.queryF 20 eLogic "add" [.str "$X", .str "$Y", .num 10])) = false :=
  rfl

/-- C9 (amended): `query("add", 5, 3, "$Result")` binds `Result` to a
term of value `8`, and `query("add", "$X", 3, 8)` binds `X` to a term
of value `5`; but `query("add", "$X", "$Y", 10)` does not enumerate
numeric solutions — it returns a binding map carrying the two unbound
variable terms and a hashed symbolic AST entry for `X + Y`. -/
theorem c9_add_bidirectional :
    PS.resVal (PS.queryF 20 eLogic "add" [.num 5, .num 3, .str "$Result"]) =
      some (.ok (.jmap [("Result", .term (.mk (.num 8) none none))])) ∧
    PS.resVal (PS.queryF 20 eLogic "add" [.str "$X", .num 3, .num 8]) =
      some (.ok (.jmap [("X", .term (.mk (.num 5) none
        (some (.binop "+" (.varNode (.str "X")) (.varNode (.num 3))))))])) ∧
    PS.resVal (PS.queryF 20 eLogic "add" [.str "$X", .str "$Y", .num 10]) =
      some (.ok (.jmap
        [("X", .term (.mk (.str "$X") none none)),
         ("Y", .term (.mk (.str "$Y") none none)),
         ("AST_-17d84e4e", .term (.mk (.str "AST_-17d84e4e") none
           (some (.binop "+" (.varNode (.str "X")) (.varNode (.str "Y"))))))])) := by
  exact ⟨rfl, rfl, rfl⟩

/-!  Claim C7 — per-query freshness of the binding environment. -/

/-- C7 counterexample: binding state does leak between independent
queries on the predicate-dispatch path — `query("add", 5, 3,
"$Result")` leaves the engine in state `eAfterAdd`, where the
variable-free call `query("greater", 5, 3)` returns the stale binding
map instead of the boolean `true` it returns on a fresh engine. -/
theorem c7_counterexample :
    PS.queryF 20 eLogic "add" [.num 5, .num 3, .str "$Result"] =
      some (.ok (.jmap [("Result", .term (.mk (.num 8) none none))],
        eAfterAdd)) ∧
    PS.resVal (PS.queryF 20 eAfterAdd "greater" [.num 5, .num 3]) =
      some (.ok (.jmap [("Result", .term (.mk (.num 8) none none))])) ∧
    PS.resVal (PS.queryF 20 eLogic "greater" [.num 5, .num 3]) =
      some (.ok (.bool true)) := by
  exact ⟨rfl, rfl, rfl⟩

/-- C7 (amended): the binding environment is rebuilt fresh only on the
generic fact/rule resolution path — there the Environment is replaced
wholesale at the start of resolution, so the entire outcome (result and
final engine) is independent of whatever context earlier queries left
behind.  Predicate-dispatch queries reuse the persistent context (see
the counterexample). -/
theorem c7_factRule_ctx_independent (fuel : Nat) (e : PS.Engine)
    (goal : String) (args : List JSVal) (c1 c2 : PS.UCtx) :
    PS.runF fuel { e with ctx := c1 } (.factRule goal args) =
    PS.runF fuel { e with ctx := c2 } (.factRule goal args) := by
  cases fuel with
  | zero => rfl
  | succ f => rfl

/-!  Claim C1 — the result-shape contract of `query`. -/

/-- C1 counterexample: the result-shape contract does not hold for
every `query` call on an engine with an active Reality — after
`assert("gravity", "strong")`, the variable-free call
`query("gravity")` succeeds yet returns the string `"strong"` (the
causal-node read path), not boolean `true`. -/
theorem c1_counterexample :
    PS.resVal (PS.queryF 5 eGrav "gravity" []) =
      some (.ok (.str "strong")) ∧
    PS.resVal (PS.queryF 5 eGrav "gravity" []) ≠
      some (.ok (.bool true)) := by
  refine ⟨rfl, fun h => ?_⟩
  rw [show PS.resVal (PS.queryF 5 eGrav "gravity" []) =
    some (.ok (.str "strong")) from rfl] at h
  simp at h

/-- The `query` step dispatches to the generic fact/rule request when
`canReachFactRule` holds and a Reality is active. -/
theorem runF_query_to_factRule (fuel : Nat) (e : PS.Engine)
    (goal : String) (args : List JSVal)
    (hcr : PS.canReachFactRule e goal args = true)
    (hact : e.active.isSome = true) :
    PS.runF (fuel + 1) e (.query goal args) =
    PS.runF fuel e (.factRule goal args) := by
  obtain ⟨ra, hra⟩ := Option.isSome_iff_exists.mp hact
  simp only [PS.canReachFactRule, Bool.and_eq_true, Bool.not_eq_true'] at hcr
  obtain ⟨⟨⟨h1, h2⟩, h3⟩, h4⟩ := hcr
  rw [Option.isNone_iff_eq_none] at h3
  cases ham : PS.activeModel e with
  | none =>
    simp only [PS.runF, hra, h1, h2, h3, ham, Bool.false_eq_true, if_false]
  | some m =>
    simp only [ham] at h4
    cases hmg : mget m.nodes goal with
    | none =>
      simp only [PS.runF, hra, h1, h2, h3, ham, hmg, Bool.false_eq_true,
        if_false]
    | some node =>
      simp only [hmg, Bool.and_eq_true, Bool.not_eq_true'] at h4
      obtain ⟨h5, h6⟩ := h4
      simp only [PS.runF, hra, h1, h2, h3, ham, hmg, h5, h6,
        Bool.false_eq_true, if_false]

/-- The shape of a successful generic fact/rule resolution: the result
value is determined by the solutions of the resolution loop exactly as
the result-shape contract states. -/
theorem runF_factRule_shape (fuel : Nat) (e : PS.Engine)
    (goal : String) (args : List JSVal) (v : JSVal) (e3 : PS.Engine)
    (hrun : PS.runF (fuel + 1) e (.factRule goal args) =
      some (.ok (.val v, e3))) :
    ∃ sols : List PS.Solution, ∃ e2 : PS.Engine,
      PS.runF fuel { e with ctx := ⟨[], [], 1, 100⟩ }
        (.loop goal args (PS.collectFacts e.knowledgeBase
          (goal ++ ":" ++ joinColon (args.map elemStr)))) =
        some (.ok (.sols sols, e2)) ∧
      (sols.isEmpty = true → v = .bool false) ∧
      (sols.isEmpty = false →
        ∃ sols1 : List PS.Solution,
          PS.astExtract sols = .ok sols1 ∧
          (args.any PS.isVariableJ = false → v = .bool true) ∧
          (args.any PS.isVariableJ = true →
            ((sols1.length == 1) = true → v = .jmap (sols1.headD [])) ∧
            ((sols1.length == 1) = false →
              v = .list (sols1.map JSVal.jmap)))) := by
  have hinc : PS.incrementDepth PS.freshCtx = .ok ⟨[], [], 1, 100⟩ := rfl
  simp only [PS.runF, hinc] at hrun
  split at hrun
  · exact Option.noConfusion hrun
  · exact absurd hrun (by simp)
  · rename_i sols e2 heq
    split at hrun
    · rename_i hemp
      simp only [Option.some.injEq, Except.ok.injEq, Prod.mk.injEq,
        PS.Res.val.injEq] at hrun
      refine ⟨sols, e2, heq, fun _ => hrun.1.symm, fun h => ?_⟩
      rw [h] at hemp
      exact absurd hemp (by simp)
    · rename_i hne
      rw [Bool.not_eq_true] at hne
      split at hrun
      · exact absurd hrun (by simp)
      · rename_i sols1 hext
        split at hrun
        · rename_i hvar
          split at hrun
          · rename_i hlen
            simp only [Option.some.injEq, Except.ok.injEq, Prod.mk.injEq,
              PS.Res.val.injEq] at hrun
            refine ⟨sols, e2, heq, fun h => ?_, fun _ =>
              ⟨sols1, hext, fun h => ?_, fun _ =>
                ⟨fun _ => hrun.1.symm, fun h => ?_⟩⟩⟩
            · rw [h] at hne; exact absurd hne (by simp)
            · rw [h] at hvar; exact absurd hvar (by simp)
            · rw [hlen] at h; exact absurd h (by simp)
          · rename_i hlen
            rw [Bool.not_eq_true] at hlen
            simp only [Option.some.injEq, Except.ok.injEq, Prod.mk.injEq,
              PS.Res.val.injEq] at hrun
            refine ⟨sols, e2, heq, fun h => ?_, fun _ =>
              ⟨sols1, hext, fun h => ?_, fun _ =>
                ⟨fun h => ?_, fun _ => hrun.1.symm⟩⟩⟩
            · rw [h] at hne; exact absurd hne (by simp)
            · rw [h] at hvar; exact absurd hvar (by simp)
            · rw [h] at hlen; exact absurd hlen (by simp)
        · rename_i hvar
          rw [Bool.not_eq_true] at hvar
          simp only [Option.some.injEq, Except.ok.injEq, Prod.mk.injEq,
            PS.Res.val.injEq] at hrun
          refine ⟨sols, e2, heq, fun h => ?_, fun _ =>
            ⟨sols1, hext, fun _ => hrun.1.symm, fun h => ?_⟩⟩
          · rw [h] at hne; exact absurd hne (by simp)
          · rw [h] at hvar; exact absurd hvar (by simp)
  · exact Option.noConfusion hrun

/-- C1 (amended): the result-shape contract holds on the generic
fact/rule resolution path.  When the goal reaches that path
(`canReachFactRule`: not isA/hasA, not any function-valued property of
the engine, not short-circuited by a causal-node read) on an engine
with an active
Reality, a successful `query` call produces its value from the
solutions of the resolution loop as follows: zero solutions give
boolean `false`; otherwise, when no argument is a variable the value
is boolean `true`; when some argument is a variable, exactly one
solution gives that solution's binding map and any other count gives
the ordered list of all the binding maps.  (Other `query` paths break
the contract — see the counterexample.) -/
theorem c1_factRule_result_shape (fuel : Nat) (e : PS.Engine)
    (goal : String) (args : List JSVal) (v : JSVal) (e3 : PS.Engine)
    (hcr : PS.canReachFactRule e goal args = true)
    (hact : e.active.isSome = true)
    (hrun : PS.runF (fuel + 2) e (.query goal args) =
      some (.ok (.val v, e3))) :
    ∃ sols : List PS.Solution, ∃ e2 : PS.Engine,
      PS.runF fuel { e with ctx := ⟨[], [], 1, 100⟩ }
        (.loop goal args (PS.collectFacts e.knowledgeBase
          (goal ++ ":" ++ joinColon (args.map elemStr)))) =
        some (.ok (.sols sols, e2)) ∧
      (sols.isEmpty = true → v = .bool false) ∧
      (sols.isEmpty = false →
        ∃ sols1 : List PS.Solution,
          PS.astExtract sols = .ok sols1 ∧
          (args.any PS.isVariableJ = false → v = .bool true) ∧
          (args.any PS.isVariableJ = true →
            ((sols1.length == 1) = true → v = .jmap (sols1.headD [])) ∧
            ((sols1.length == 1) = false →
              v = .list (sols1.map JSVal.jmap)))) := by
  rw [runF_query_to_factRule (fuel + 1) e goal args hcr hact] at hrun
  exact runF_factRule_shape fuel e goal args v e3 hrun

/-- C1 witness: on the engine with `gravity = strong` asserted, the
goal `parent` (no facts, no rules, no arguments) reaches the fact/rule
path with an active Reality, the query returns boolean `false`, and
the theorem instantiates there. -/
theorem c1_witness :
    ∃ sols : List PS.Solution, ∃ e2 : PS.Engine,
      PS.runF 6 { eGrav with ctx := ⟨[], [], 1, 100⟩ }
        (.loop "parent" [] (PS.collectFacts eGrav.knowledgeBase
          ("parent" ++ ":" ++ joinColon (([] : List JSVal).map elemStr)))) =
        some (.ok (.sols sols, e2)) ∧
      (sols.isEmpty = true → JSVal.bool false = .bool false) ∧
      (sols.isEmpty = false →
        ∃ sols1 : List PS.Solution,
          PS.astExtract sols = .ok sols1 ∧
          (([] : List JSVal).any PS.isVariableJ = false →
            JSVal.bool false = .bool true) ∧
          (([] : List JSVal).any PS.isVariableJ = true →
            ((sols1.length == 1) = true →
              JSVal.bool false = .jmap (sols1.headD [])) ∧
            ((sols1.length == 1) = false →
              JSVal.bool false = .list (sols1.map JSVal.jmap)))) :=
  c1_factRule_result_shape 6 eGrav "parent" [] (.bool false) _ rfl rfl rfl

/-!  Claim C3 — Reality isolation of assertions. -/

/-- A `query` call on a goal that is a causal-model node of the active
Reality, with no arguments, returns the node's state. -/
theorem queryF_node_read (fuel : Nat) (e : PS.Engine) (f : String)
    (m : CM.CModel) (node : CM.CNode)
    (h1 : ((splitColon f).headD "" == "isA") = false)
    (h2 : ((splitColon f).headD "" == "hasA") = false)
    (hd : PS.dispatchF f = none)
    (ha : e.active.isSome = true)
    (ham : PS.activeModel e = some m)
    (hmg : mget m.nodes f = some node) :
    PS.resVal (PS.queryF (fuel + 1) e f []) = some (.ok node.state) := by
  obtain ⟨i, hi⟩ := Option.isSome_iff_exists.mp ha
  simp at h1 h2
  simp [PS.resVal, PS.queryF, PS.runF, Except.map, hi, h1, h2, hd, ham, hmg]

/-- C3 counterexample: an `isA` fact asserted while Reality `RA` is
active is visible from Reality `RB` — isA facts live in the
engine-global knowledge base, so identically-keyed category facts are
shared between Realities. -/
theorem c3_counterexample :
    eIsaA.active = some 0 ∧ eIsaB.active = some 1 ∧
    PS.resVal (PS.queryF 3 eIsaB "isA" [.str "socrates", .str "human"]) =
      some (.ok (.bool true)) := ⟨rfl, rfl, rfl⟩

/-- C3 (amended): plain value facts written by the `assert` predicate
are Reality-local — asserting `f = v1` in Reality `A` and `f = v2` in
Reality `B`, in either order, and then switching realities always
makes a `query` of `f` return the Reality-local value (`A` gives `v1`,
`B` gives `v2`).  The hypotheses require the fact name not to be an
isA/hasA key and not to be any function-valued property of the engine
(`dispatchF f = none`, a complete test over `fnProps`), since such
names never reach the Reality-local fact store.  (`isA` facts are
engine-global and are visible from every Reality — see the
counterexample.) -/
theorem c3_reality_isolation (f : String) (v1 v2 : JSVal)
    (h1 : ((splitColon f).headD "" == "isA") = false)
    (h2 : ((splitColon f).headD "" == "hasA") = false)
    (hd : PS.dispatchF f = none) :
    (PS.resVal (PS.queryF 1
        ((PS.switchReality (c3Engine "A" "B" f v1 v2) "A").2) f []) =
      some (.ok v1) ∧
     PS.resVal (PS.queryF 1
        ((PS.switchReality (c3Engine "A" "B" f v1 v2) "B").2) f []) =
      some (.ok v2)) ∧
    (PS.resVal (PS.queryF 1
        ((PS.switchReality (c3EngineRev "A" "B" f v1 v2) "A").2) f []) =
      some (.ok v1) ∧
     PS.resVal (PS.queryF 1
        ((PS.switchReality (c3EngineRev "A" "B" f v1 v2) "B").2) f []) =
      some (.ok v2)) := by
  have hjs : jsToString (JSVal.str f) = f := rfl
  have hE : c3Engine "A" "B" f v1 v2 =
      ⟨[⟨"A", ⟨[(f, ⟨v1, .null, [], []⟩)], [], []⟩⟩,
        ⟨"B", ⟨[(f, ⟨v2, .null, [], []⟩)], [], []⟩⟩],
       [("A", 0), ("B", 1)], some 1, [(f, .plain v2)], [], [],
       PS.freshCtx⟩ := by
    simp [c3Engine, c3Half, PS.createReality, PS.initEngine,
      PS.switchReality, PS.assertPredF, PS.activeModel, PS.setActiveModel,
      CM.addNode, CM.setNodeState, CM.emptyModel, mget, mset, mhas, hjs]
  have hErev : c3EngineRev "A" "B" f v1 v2 =
      ⟨[⟨"A", ⟨[(f, ⟨v1, .null, [], []⟩)], [], []⟩⟩,
        ⟨"B", ⟨[(f, ⟨v2, .null, [], []⟩)], [], []⟩⟩],
       [("A", 0), ("B", 1)], some 0, [(f, .plain v1)], [], [],
       PS.freshCtx⟩ := by
    simp [c3EngineRev, PS.createReality, PS.initEngine,
      PS.switchReality, PS.assertPredF, PS.activeModel, PS.setActiveModel,
      CM.addNode, CM.setNodeState, CM.emptyModel, mget, mset, mhas, hjs]
  rw [hE, hErev]
  exact ⟨⟨queryF_node_read 0 _ f _ ⟨v1, .null, [], []⟩ h1 h2 hd rfl rfl
      (by simp [mget]),
    queryF_node_read 0 _ f _ ⟨v2, .null, [], []⟩ h1 h2 hd rfl rfl
      (by simp [mget])⟩,
   ⟨queryF_node_read 0 _ f _ ⟨v1, .null, [], []⟩ h1 h2 hd rfl rfl
      (by simp [mget]),
    queryF_node_read 0 _ f _ ⟨v2, .null, [], []⟩ h1 h2 hd rfl rfl
      (by simp [mget])⟩⟩

/-- C3 witness: the theorem instantiated at the fact `gravity` with
values `strong`/`weak`. -/
theorem c3_witness :
    (PS.resVal (PS.queryF 1
        ((PS.switchReality (c3Engine "A" "B" "gravity"
          (.str "strong") (.str "weak")) "A").2) "gravity" []) =
      some (.ok (.str "strong")) ∧
     PS.resVal (PS.queryF 1
        ((PS.switchReality (c3Engine "A" "B" "gravity"
          (.str "strong") (.str "weak")) "B").2) "gravity" []) =
      some (.ok (.str "weak"))) ∧
    (PS.resVal (PS.queryF 1
        ((PS.switchReality (c3EngineRev "A" "B" "gravity"
          (.str "strong") (.str "weak")) "A").2) "gravity" []) =
      some (.ok (.str "strong")) ∧
     PS.resVal (PS.queryF 1
        ((PS.switchReality (c3EngineRev "A" "B" "gravity"
          (.str "strong") (.str "weak")) "B").2) "gravity" []) =
      some (.ok (.str "weak"))) :=
  c3_reality_isolation "gravity" (.str "strong") (.str "weak") rfl rfl rfl

/-!  Claim C2 — Counterfactual.compute restores the live model. -/

theorem sameShape_refl (ns : List (String × CM.CNode)) : SameShape ns ns :=
  List.forall₂_same.mpr (fun _ _ => ⟨rfl, rfl, rfl, rfl⟩)

theorem sameShape_trans {a b c : List (String × CM.CNode)}
    (h1 : SameShape a b) (h2 : SameShape b c) : SameShape a c := by
  induction h1 generalizing c with
  | nil => cases h2; exact .nil
  | cons h t ih =>
    cases h2 with
    | cons h' t' =>
      exact .cons ⟨h.1.trans h'.1, h.2.1.trans h'.2.1,
        h.2.2.1.trans h'.2.2.1, h.2.2.2.trans h'.2.2.2⟩ (ih t')

theorem sameShape_keys {a b : List (String × CM.CNode)}
    (h : SameShape a b) : a.map Prod.fst = b.map Prod.fst := by
  induction h with
  | nil => rfl
  | cons hh _ ih => simp only [List.map_cons, ih, hh.1]

theorem setNodeState_shape (ns : List (String × CM.CNode)) (n : String)
    (v : JSVal) : SameShape (CM.setNodeState ns n v) ns := by
  induction ns with
  | nil => exact List.Forall₂.nil
  | cons p rest ih =>
    simp only [CM.setNodeState, List.map_cons]
    refine List.Forall₂.cons ?_ ih
    by_cases h : p.1 = n <;> simp [h, nodeShapeEq]

theorem setNodeState_not_mem (ns : List (String × CM.CNode)) (n : String)
    (v : JSVal) (h : n ∉ ns.map Prod.fst) : CM.setNodeState ns n v = ns := by
  induction ns with
  | nil => rfl
  | cons p rest ih =>
    simp only [List.map_cons, List.mem_cons, not_or] at h
    simp only [CM.setNodeState, List.map_cons] at ih ⊢
    rw [if_neg (fun hh => h.1 hh.symm), ih h.2]

theorem restoreNodes_nil (ns : List (String × CM.CNode)) :
    CFm.restoreNodes ns [] = ns := rfl

theorem restoreNodes_cons (ns : List (String × CM.CNode))
    (p : String × JSVal) (rest : List (String × JSVal)) :
    CFm.restoreNodes ns (p :: rest) =
    CFm.restoreNodes (CM.setNodeState ns p.1 p.2) rest := rfl

theorem restoreNodes_skip (tl : List (String × CM.CNode)) (k : String)
    (nd : CM.CNode) (orig : List (String × JSVal))
    (h : ∀ p ∈ orig, p.1 ≠ k) :
    CFm.restoreNodes ((k, nd) :: tl) orig =
    (k, nd) :: CFm.restoreNodes tl orig := by
  induction orig generalizing tl with
  | nil => rfl
  | cons p rest ih =>
    rw [restoreNodes_cons, restoreNodes_cons]
    have hk : p.1 ≠ k := h p (List.mem_cons_self _ _)
    have hset : CM.setNodeState ((k, nd) :: tl) p.1 p.2 =
        (k, nd) :: CM.setNodeState tl p.1 p.2 := by
      simp only [CM.setNodeState, List.map_cons]
      rw [if_neg (fun hh => hk hh.symm)]
    rw [hset]
    exact ih _ (fun q hq => h q (List.mem_cons_of_mem _ hq))

theorem restoreNodes_exact (ns1 ns : List (String × CM.CNode))
    (hsh : SameShape ns1 ns) (hnd : (ns.map Prod.fst).Nodup) :
    CFm.restoreNodes ns1 (ns.map (fun p => (p.1, p.2.state))) = ns := by
  induction hsh with
  | nil => rfl
  | cons hh ht ih =>
    rename_i a b l1 l2
    simp only [List.map_cons] at hnd ⊢
    rw [List.nodup_cons] at hnd
    rw [restoreNodes_cons]
    have hl1 : CM.setNodeState l1 b.1 b.2.state = l1 := by
      apply setNodeState_not_mem
      rw [sameShape_keys ht]
      exact hnd.1
    have hset : CM.setNodeState (a :: l1) b.1 b.2.state =
        (b.1, b.2) :: l1 := by
      simp only [CM.setNodeState, List.map_cons] at hl1 ⊢
      rw [if_pos hh.1, hl1]
      obtain ⟨a1, ⟨as, ass, ap, ac⟩⟩ := a
      obtain ⟨b1, ⟨bs, bss, bp, bc⟩⟩ := b
      obtain ⟨h1, h2, h3, h4⟩ := hh
      simp_all
    rw [hset]
    have hskip : CFm.restoreNodes ((b.1, b.2) :: l1)
        (l2.map (fun p => (p.1, p.2.state))) =
        (b.1, b.2) :: CFm.restoreNodes l1 (l2.map (fun p => (p.1, p.2.state))) := by
      apply restoreNodes_skip
      intro p hp
      obtain ⟨q, hq, rfl⟩ := List.mem_map.mp hp
      exact fun hc => hnd.1 (hc ▸ List.mem_map_of_mem Prod.fst hq)
    rw [hskip, ih hnd.2]

theorem updateNodeState_shape (m : CM.CModel) (n : String) (v : JSVal)
    (m1 : CM.CModel) (h : CM.updateNodeState m n v = .ok m1) :
    m1.edges = m.edges ∧ m1.interventions = m.interventions ∧
    SameShape m1.nodes m.nodes := by
  unfold CM.updateNodeState at h
  split at h
  · cases h; exact ⟨rfl, rfl, sameShape_refl _⟩
  · split at h
    · split at h
      · split at h
        · cases h; exact ⟨rfl, rfl, setNodeState_shape _ _ _⟩
        · exact Except.noConfusion h
      · exact Except.noConfusion h
    · cases h; exact ⟨rfl, rfl, setNodeState_shape _ _ _⟩

theorem processChildren_shape (cur : JSVal) (es : List (String × CM.Mech)) :
    ∀ m : CM.CModel,
    (∀ er m1, CM.processChildren m cur es = .error (er, m1) →
      m1.edges = m.edges ∧ m1.interventions = m.interventions ∧
      SameShape m1.nodes m.nodes) ∧
    (∀ m1 ps, CM.processChildren m cur es = .ok (m1, ps) →
      m1.edges = m.edges ∧ m1.interventions = m.interventions ∧
      SameShape m1.nodes m.nodes) := by
  induction es with
  | nil =>
    intro m
    constructor
    · intro er m1 h; exact Except.noConfusion h
    · intro m1 ps h
      simp only [CM.processChildren, Except.ok.injEq, Prod.mk.injEq] at h
      obtain ⟨rfl, rfl⟩ := h
      exact ⟨rfl, rfl, sameShape_refl _⟩
  | cons p rest ih =>
    obtain ⟨child, mech⟩ := p
    intro m
    constructor
    · intro er m1 h
      simp only [CM.processChildren] at h
      split at h
      · exact (ih m).1 er m1 h
      · split at h
        · exact (ih m).1 er m1 h
        · split at h
          · rename_i e heq
            simp only [Except.error.injEq, Prod.mk.injEq] at h
            obtain ⟨rfl, rfl⟩ := h
            exact ⟨rfl, rfl, sameShape_refl _⟩
          · rename_i m1x hupd
            split at h
            · rename_i em heq2
              obtain ⟨hed, hiv, hsh⟩ := (ih m1x).1 er m1 (by rw [heq2, h])
              obtain ⟨hed2, hiv2, hsh2⟩ := updateNodeState_shape m child _ m1x hupd
              exact ⟨hed.trans hed2, hiv.trans hiv2, sameShape_trans hsh hsh2⟩
            · exact Except.noConfusion h
    · intro m1 ps h
      simp only [CM.processChildren] at h
      split at h
      · exact (ih m).2 m1 ps h
      · split at h
        · exact (ih m).2 m1 ps h
        · split at h
          · exact Except.noConfusion h
          · rename_i m1x hupd
            split at h
            · exact Except.noConfusion h
            · rename_i m2x pushes heq2
              simp only [Except.ok.injEq, Prod.mk.injEq] at h
              obtain ⟨h1, h2⟩ := h
              rw [← h1]
              obtain ⟨hed, hiv, hsh⟩ := (ih m1x).2 m2x pushes heq2
              obtain ⟨hed2, hiv2, hsh2⟩ := updateNodeState_shape m child _ m1x hupd
              exact ⟨hed.trans hed2, hiv.trans hiv2, sameShape_trans hsh hsh2⟩

theorem propagateF_shape (fuel : Nat) :
    ∀ (m : CM.CModel) (vis q : List String) (err : Option JSError)
      (m1 : CM.CModel) (vis1 : List String),
    CM.propagateF fuel m vis q = some (err, m1, vis1) →
    m1.edges = m.edges ∧ m1.interventions = m.interventions ∧
    SameShape m1.nodes m.nodes := by
  induction fuel with
  | zero => intro m vis q err m1 vis1 h; exact Option.noConfusion h
  | succ f ih =>
    intro m vis q err m1 vis1 h
    simp only [CM.propagateF] at h
    split at h
    · simp only [Option.some.injEq, Prod.mk.injEq] at h
      obtain ⟨rfl, rfl, rfl⟩ := h
      exact ⟨rfl, rfl, sameShape_refl _⟩
    · split at h
      · exact ih m vis _ err m1 vis1 h
      · split at h
        · exact ih m _ _ err m1 vis1 h
        · rename_i es hes
          split at h
          · rename_i e m1x heq
            simp only [Option.some.injEq, Prod.mk.injEq] at h
            obtain ⟨h1, h2, h3⟩ := h
            rw [← h2]
            exact (processChildren_shape _ es m).1 e m1x heq
          · rename_i m1x pushes heq
            obtain ⟨hed, hiv, hsh⟩ := ih m1x _ _ err m1 vis1 h
            obtain ⟨hed2, hiv2, hsh2⟩ := (processChildren_shape _ es m).2 m1x pushes heq
            exact ⟨hed.trans hed2, hiv.trans hiv2, sameShape_trans hsh hsh2⟩

theorem interveneF_shape (fuel : Nat) (m : CM.CModel) (n : String)
    (v : JSVal) (err : Option JSError) (m2 : CM.CModel) (st : JSVal)
    (h : CM.interveneF fuel m n v = some (err, m2, st)) :
    m2.edges = m.edges ∧ SameShape m2.nodes m.nodes := by
  simp only [CM.interveneF] at h
  split at h
  · exact Option.noConfusion h
  · rename_i errOpt m2x vis heq
    simp only [Option.some.injEq, Prod.mk.injEq] at h
    obtain ⟨h1, h2, h3⟩ := h
    rw [← h2]
    have := propagateF_shape fuel _ [] [n] errOpt m2x vis heq
    exact ⟨this.1, this.2.2⟩

theorem applyIntervs_shape (l : List (String × JSVal)) :
    ∀ (fuel : Nat) (m : CM.CModel) (err : Option JSError) (m1 : CM.CModel),
    CFm.applyIntervs fuel l m = some (err, m1) →
    m1.edges = m.edges ∧ SameShape m1.nodes m.nodes := by
  induction l with
  | nil =>
    intro fuel m err m1 h
    simp only [CFm.applyIntervs, Option.some.injEq, Prod.mk.injEq] at h
    obtain ⟨rfl, rfl⟩ := h
    exact ⟨rfl, sameShape_refl _⟩
  | cons p rest ih =>
    obtain ⟨v, val⟩ := p
    intro fuel m err m1 h
    simp only [CFm.applyIntervs] at h
    split at h
    · exact Option.noConfusion h
    · rename_i e m1x stx heq
      simp only [Option.some.injEq, Prod.mk.injEq] at h
      obtain ⟨h1, h2⟩ := h
      rw [← h2]
      exact interveneF_shape fuel m v val _ m1x stx heq
    · rename_i m1x stx heq
      obtain ⟨hed, hsh⟩ := ih fuel m1x err m1 h
      obtain ⟨hed2, hsh2⟩ := interveneF_shape fuel m v val none m1x stx heq
      exact ⟨hed.trans hed2, sameShape_trans hsh hsh2⟩

/-- C2: `Counterfactual.compute()` restores the live model on every
exit path — whether the pending interventions applied cleanly or a
domain-validation error was thrown mid-propagation, the returned live
model has exactly the original nodes (states included), the original
interventions map, and the original edges.  (The node keys are assumed
unique, as JS `Map` guarantees.) -/
theorem c2_compute_restores (fuel : Nat) (cf : CFm.CFState)
    (m : CM.CModel) (hnd : (m.nodes.map Prod.fst).Nodup)
    (err : Option JSError) (cf2 : CFm.CFState) (m2 : CM.CModel)
    (h : CFm.computeF fuel cf m = some (err, cf2, m2)) :
    m2.nodes = m.nodes ∧ m2.interventions = m.interventions ∧
    m2.edges = m.edges := by
  simp only [CFm.computeF] at h
  split at h
  · exact Option.noConfusion h
  · rename_i errOpt m1 heq
    simp only [Option.some.injEq, Prod.mk.injEq] at h
    obtain ⟨h1, h2, h3⟩ := h
    rw [← h3]
    obtain ⟨hed, hsh⟩ := applyIntervs_shape cf.interventions fuel _ errOpt m1 heq
    refine ⟨?_, rfl, hed⟩
    exact restoreNodes_exact m1.nodes m.nodes hsh hnd

/-- C2 witness: the theorem instantiated on the error path — the model
whose `light` domain rejects the mechanism output: `compute()` throws
the domain error yet the returned live model equals `mBad` again. -/
theorem c2_witness :
    ((mBad.nodes.map Prod.fst).Nodup) ∧
    ∃ err cf2 m2, CFm.computeF 20 cfOn mBad = some (err, cf2, m2) ∧
      (m2.nodes = mBad.nodes ∧ m2.interventions = mBad.interventions ∧
       m2.edges = mBad.edges) :=
  ⟨by decide, _, _, _, rfl,
   c2_compute_restores 20 cfOn mBad (by decide) _ _ _ rfl⟩

/-!  Claim C5 — the occurs check. -/

theorem vunifyF_nil (f : Nat) (cenv : VarJS.CEnv) (ctx : VarJS.VCtx) :
    VarJS.vunifyF f cenv ctx [] = some (.ok (true, ctx)) := by
  cases f <;> rfl

/-- Unifying an unbound variable `v` with a term `t` in which `v`
occurs purely through the variable binding chain (the only occurs
cases `occursIn` can report without throwing) terminates with the
context unchanged, and returns exactly `vchainEq` — true only when `t`
resolves to `v` itself. -/
theorem vunify_occurs_main (fuel : Nat) :
    ∀ (cenv : VarJS.CEnv) (ctx : VarJS.VCtx) (v : String)
      (t : VarJS.VTerm) (b : Bool),
    mget ctx v = none →
    VarJS.voccursF fuel v ctx t = some (.ok true) →
    VarJS.vchainEq fuel ctx v t = some b →
    VarJS.vunifyF fuel cenv ctx [(.vr v, t)] = some (.ok (b, ctx)) := by
  induction fuel with
  | zero =>
    intro cenv ctx v t b hm ho hc
    exact Option.noConfusion hc
  | succ f ih =>
    intro cenv ctx v t b hm ho hc
    have hv : mhas ctx v = false := by simp [mhas, hm]
    cases t with
    | prim p =>
      rw [show VarJS.voccursF (f+1) v ctx (.prim p) =
          some (.error .typeError) from rfl] at ho
      exact absurd ho (by simp)
    | arr xs =>
      rw [show VarJS.voccursF (f+1) v ctx (.arr xs) =
          some (.error .typeError) from rfl] at ho
      exact absurd ho (by simp)
    | vr y =>
      by_cases hyv : y = v
      · subst hyv
        simp only [VarJS.vchainEq, eq_self_iff_true, if_true,
          Option.some.injEq] at hc
        subst hc
        simp only [VarJS.vunifyF, eq_self_iff_true, if_true, vunifyF_nil]
      · cases hby : mhas ctx y with
        | false =>
          simp [VarJS.voccursF, hyv, hby] at ho
        | true =>
          have hvy : ¬(v = y) := fun h => hyv h.symm
          have ho2 : VarJS.voccursF f v ctx (VarJS.getValueC ctx y) =
              some (.ok true) := by
            simpa [VarJS.voccursF, hyv, hby] using ho
          have hc2 : VarJS.vchainEq f ctx v (VarJS.getValueC ctx y) =
              some b := by
            simpa [VarJS.vchainEq, hyv, hby] using hc
          have hstep := ih cenv ctx v (VarJS.getValueC ctx y) b hm ho2 hc2
          simpa [VarJS.vunifyF, hvy, hby, hv] using hstep

/-- C5 (amended): the occurs check never lets a cyclic structure be
built and never loops, but it does not make unification *fail
cleanly*.  When `v` occurs in `t` purely through the variable binding
chain, unification terminates with no new binding, returning true
exactly when the chain resolves `t` to `v` itself (trivial success —
see the counterexample).  When `t` is a non-Variable term — an array
(including the claim's list containing `v`) or a primitive — the
occurs check's very first step, `term.isVariable()`, throws a
`TypeError`, so the unification terminates by throwing, again with no
binding created.  The part_008 engine's `_bindVariable`, whose
`_occursCheck` does traverse lists, fails cleanly with the context
unchanged whenever its occurs check is positive. -/
theorem c5_occurs_unify (fuel : Nat) (cenv : VarJS.CEnv)
    (ctx : VarJS.VCtx) (v : String) (t : VarJS.VTerm) (b : Bool)
    (xs : List VarJS.VTerm) (p : VarJS.Prim)
    (c : PS.UCtx) (vt value : PTerm) :
    (mget ctx v = none →
     VarJS.voccursF fuel v ctx t = some (.ok true) →
     VarJS.vchainEq fuel ctx v t = some b →
     VarJS.vunifyF fuel cenv ctx [(.vr v, t)] = some (.ok (b, ctx))) ∧
    (VarJS.vunifyF (fuel + 1) cenv ctx [(.vr v, .arr xs)] =
      some (.error .typeError)) ∧
    (VarJS.vunifyF (fuel + 1) cenv ctx [(.vr v, .prim p)] =
      some (.error .typeError)) ∧
    (PS.occursTF fuel vt [value] = some true →
     PS.bindVariableT fuel c vt value = some (false, c)) := by
  refine ⟨fun hm ho hc => vunify_occurs_main fuel cenv ctx v t b hm ho hc,
    rfl, rfl, ?_⟩
  intro h
  simp only [PS.bindVariableT, h]

/-- C5 counterexample: with `Y` already bound to `X`, the variable `X`
occurs in the term `Y` through the existing binding, yet
`unify(X, Y)` does not fail — the variable pair chase reaches `X ≡ X`
and succeeds (returning `true`, with no new binding and no
exception). -/
theorem c5_counterexample :
    VarJS.voccursF 5 "X" [("Y", .vr "X")] (.vr "Y") = some (.ok true) ∧
    VarJS.vunifyF 5 (fun _ _ => true) [("Y", .vr "X")]
      [(.vr "X", .vr "Y")] =
      some (.ok (true, [("Y", .vr "X")])) := ⟨rfl, rfl⟩

/-- C5 witness: the variable-chain occurs case trivially succeeds with
no binding; unifying `X` with the array `[X]` or with a number throws
the occurs check's `TypeError`; and the part_008 `_bindVariable` under
a positive occurs check fails with its context unchanged. -/
theorem c5_witness :
    (mget [("Y", VarJS.VTerm.vr "X")] "X" = none ∧
     VarJS.voccursF 5 "X" [("Y", .vr "X")] (.vr "Y") = some (.ok true) ∧
     VarJS.vchainEq 5 [("Y", .vr "X")] "X" (.vr "Y") = some true ∧
     VarJS.vunifyF 5 (fun _ _ => true) [("Y", .vr "X")]
       [(.vr "X", .vr "Y")] =
       some (.ok (true, [("Y", .vr "X")]))) ∧
    (VarJS.vunifyF 6 (fun _ _ => true) [("Y", .vr "X")]
       [(.vr "X", .arr [.vr "X"])] = some (.error .typeError)) ∧
    (VarJS.vunifyF 6 (fun _ _ => true) [("Y", .vr "X")]
       [(.vr "X", .prim (.num 5))] = some (.error .typeError)) ∧
    (PS.occursTF 5 (.mk (.str "$X") none none)
       [.mk (.list [.term (.mk (.str "$X") none none)]) none none] =
       some true ∧
     PS.bindVariableT 5 PS.freshCtx (.mk (.str "$X") none none)
       (.mk (.list [.term (.mk (.str "$X") none none)]) none none) =
       some (false, PS.freshCtx)) :=
  ⟨⟨rfl, rfl, rfl,
    (c5_occurs_unify 5 (fun _ _ => true) [("Y", .vr "X")] "X" (.vr "Y")
      true [.vr "X"] (.num 5) PS.freshCtx (.mk (.str "$X") none none)
      (.mk (.str "$X") none none)).1 rfl rfl rfl⟩,
   (c5_occurs_unify 5 (fun _ _ => true) [("Y", .vr "X")] "X" (.vr "Y")
      true [.vr "X"] (.num 5) PS.freshCtx (.mk (.str "$X") none none)
      (.mk (.str "$X") none none)).2.1,
   (c5_occurs_unify 5 (fun _ _ => true) [("Y", .vr "X")] "X" (.vr "Y")
      true [.vr "X"] (.num 5) PS.freshCtx (.mk (.str "$X") none none)
      (.mk (.str "$X") none none)).2.2.1,
   ⟨rfl,
    (c5_occurs_unify 5 (fun _ _ => true) [("Y", .vr "X")] "X" (.vr "Y")
      true [.vr "X"] (.num 5) PS.freshCtx (.mk (.str "$X") none none)
      (.mk (.list [.term (.mk (.str "$X") none none)]) none none)).2.2.2
      rfl⟩⟩

/-!  Claim C4 — propagation visits nodes at most once and terminates. -/

theorem length_filter_mono {α : Type} (l : List α) (p p1 : α → Bool)
    (h : ∀ x, p1 x = true → p x = true) :
    (l.filter p1).length ≤ (l.filter p).length := by
  induction l with
  | nil => simp
  | cons a rest ih =>
    simp only [List.filter_cons]
    cases hp1 : p1 a
    · cases hp : p a <;> simp <;> omega
    · rw [h a hp1]
      simp
      omega

theorem length_filter_strict {α : Type} (l : List α) (p p1 : α → Bool)
    (q : α) (h : ∀ x, p1 x = true → p x = true) (hq : q ∈ l)
    (hpq : p q = true) (hpq1 : p1 q = false) :
    (l.filter p1).length < (l.filter p).length := by
  induction l with
  | nil => cases hq
  | cons a rest ih =>
    simp only [List.filter_cons]
    rcases List.mem_cons.mp hq with rfl | ha
    · rw [hpq, hpq1]
      simp
      have := length_filter_mono rest p p1 h
      omega
    · have hstrict := ih ha
      cases hp1 : p1 a
      · cases hp : p a <;> simp <;> omega
      · rw [h a hp1]
        simp
        omega

theorem mget_mem {α : Type} (l : List (String × α)) (k : String) (v : α)
    (h : mget l k = some v) : (k, v) ∈ l := by
  induction l with
  | nil => exact Option.noConfusion h
  | cons p rest ih =>
    simp only [mget] at h
    split at h
    · rename_i heq
      subst heq
      obtain rfl := Option.some.inj h
      exact List.mem_cons_self _ _
    · exact List.mem_cons_of_mem _ (ih h)

theorem flatMap_sublist {α β : Type} (f : α → List β) (l : List α) (a : α)
    (h : a ∈ l) : (f a).Sublist (l.flatMap f) := by
  induction l with
  | nil => cases h
  | cons x rest ih =>
    rcases List.mem_cons.mp h with rfl | h
    · simp
    · have hr : (rest.flatMap f).Sublist ((x :: rest).flatMap f) := by
        simp
      exact (ih h).trans hr

theorem edges_targets_sublist (m : CM.CModel) (q : String)
    (es : List (String × CM.Mech)) (h : mget m.edges q = some es) :
    (es.map Prod.fst).Sublist (CM.targets m) :=
  flatMap_sublist (fun p => p.2.map Prod.fst) m.edges (q, es)
    (mget_mem m.edges q es h)

theorem processChildren_pushes (cur : JSVal)
    (es : List (String × CM.Mech)) :
    ∀ (m m1 : CM.CModel) (ps : List String),
    CM.processChildren m cur es = .ok (m1, ps) →
    ps.length ≤ es.length ∧ ∀ x ∈ ps, x ∈ es.map Prod.fst := by
  induction es with
  | nil =>
    intro m m1 ps h
    simp only [CM.processChildren, Except.ok.injEq, Prod.mk.injEq] at h
    obtain ⟨h1, h2⟩ := h
    rw [← h2]
    exact ⟨by simp, by simp⟩
  | cons p rest ih =>
    obtain ⟨child, mech⟩ := p
    intro m m1 ps h
    simp only [CM.processChildren] at h
    split at h
    · obtain ⟨hl, hm⟩ := ih m m1 ps h
      exact ⟨by simpa using Nat.le_succ_of_le hl,
        fun x hx => by simpa using Or.inr (by simpa using hm x hx)⟩
    · split at h
      · obtain ⟨hl, hm⟩ := ih m m1 ps h
        exact ⟨by simpa using Nat.le_succ_of_le hl,
          fun x hx => by simpa using Or.inr (by simpa using hm x hx)⟩
      · split at h
        · exact Except.noConfusion h
        · rename_i m1x hupd
          split at h
          · exact Except.noConfusion h
          · rename_i m2x pushes heq
            simp only [Except.ok.injEq, Prod.mk.injEq] at h
            obtain ⟨h1, h2⟩ := h
            rw [← h2]
            obtain ⟨hl, hm⟩ := ih m1x m2x pushes heq
            constructor
            · simpa using hl
            · intro x hx
              rcases List.mem_cons.mp hx with rfl | hx
              · simp
              · simpa using Or.inr (by simpa using hm x hx)

theorem propagateF_suff (pool ts : List String) :
    ∀ (fuel : Nat) (m : CM.CModel) (visited queue : List String),
    CM.targets m = ts →
    (∀ x ∈ ts, x ∈ pool) →
    (∀ x ∈ queue, x ∈ pool) →
    (pool.filter (fun x => decide (x ∉ visited))).length * (ts.length + 1)
      + queue.length < fuel →
    (CM.propagateF fuel m visited queue).isSome = true := by
  intro fuel
  induction fuel with
  | zero =>
    intro m visited queue _ _ _ hfu
    exact absurd hfu (Nat.not_lt_zero _)
  | succ f ih =>
    intro m visited queue hts htp hqp hfu
    cases queue with
    | nil => simp [CM.propagateF]
    | cons q qs =>
      simp only [CM.propagateF]
      cases hcq : visited.contains q with
      | true =>
        simp only [hcq, if_true]
        apply ih m visited qs hts htp
          (fun x hx => hqp x (List.mem_cons_of_mem _ hx))
        simp only [List.length_cons] at hfu
        omega
      | false =>
        simp only [hcq, Bool.false_eq_true, if_false]
        have hqnv : q ∉ visited := by simpa using hcq
        have hqpool : q ∈ pool := hqp q (List.mem_cons_self _ _)
        have himp : ∀ x : String, decide (x ∉ visited ++ [q]) = true →
            decide (x ∉ visited) = true := by
          intro x
          simp [List.mem_append]
          tauto
        have hU : (pool.filter (fun x => decide (x ∉ visited ++ [q]))).length <
            (pool.filter (fun x => decide (x ∉ visited))).length := by
          apply length_filter_strict pool _ _ q himp hqpool
          · simp [hqnv]
          · simp
        have hmul := Nat.mul_le_mul_right (ts.length + 1) hU
        rw [Nat.succ_mul] at hmul
        simp only [List.length_cons] at hfu
        cases hme : mget m.edges q with
        | none =>
          simp only [hme]
          apply ih m (visited ++ [q]) qs hts htp
            (fun x hx => hqp x (List.mem_cons_of_mem _ hx))
          omega
        | some es =>
          simp only [hme]
          cases hpc : CM.processChildren m (CM.getState m q) es with
          | error em =>
            obtain ⟨e2, m2⟩ := em
            simp [hpc]
          | ok r =>
            obtain ⟨m1, pushes⟩ := r
            simp only [hpc]
            have hed := ((processChildren_shape (CM.getState m q) es m).2
              m1 pushes hpc).1
            have hts1 : CM.targets m1 = ts := by
              rw [← hts]
              unfold CM.targets
              rw [hed]
            obtain ⟨hlen, hsub⟩ := processChildren_pushes (CM.getState m q)
              es m m1 pushes hpc
            have hesub : (es.map Prod.fst).Sublist (CM.targets m) :=
              edges_targets_sublist m q es hme
            refine ih m1 (visited ++ [q]) (qs ++ pushes) hts1 htp ?_ ?_
            · intro x hx
              rcases List.mem_append.mp hx with hx | hx
              · exact hqp x (List.mem_cons_of_mem _ hx)
              · exact htp x (hts ▸ hesub.subset (hsub x hx))
            · have hply : pushes.length ≤ ts.length := by
                calc pushes.length ≤ es.length := hlen
                _ = (es.map Prod.fst).length := (List.length_map _ _).symm
                _ ≤ (CM.targets m).length := hesub.length_le
                _ = ts.length := by rw [hts]
              simp only [List.length_append]
              omega

theorem propagateF_nodup (fuel : Nat) :
    ∀ (m : CM.CModel) (visited queue : List String) (err : Option JSError)
      (m1 : CM.CModel) (vis1 : List String),
    visited.Nodup →
    CM.propagateF fuel m visited queue = some (err, m1, vis1) →
    vis1.Nodup := by
  induction fuel with
  | zero => intro m visited queue err m1 vis1 _ h; exact Option.noConfusion h
  | succ f ih =>
    intro m visited queue err m1 vis1 hnd h
    simp only [CM.propagateF] at h
    split at h
    · simp only [Option.some.injEq, Prod.mk.injEq] at h
      obtain ⟨h1, h2, h3⟩ := h
      rw [← h3]
      exact hnd
    · rename_i q qs
      split at h
      · exact ih m visited qs err m1 vis1 hnd h
      · rename_i hnc
        have hqnv : q ∉ visited := by
          simpa using (Bool.not_eq_true _).mp hnc
        have hnd1 : (visited ++ [q]).Nodup := by
          simp [List.nodup_append, hnd, hqnv]
        split at h
        · exact ih m (visited ++ [q]) qs err m1 vis1 hnd1 h
        · split at h
          · simp only [Option.some.injEq, Prod.mk.injEq] at h
            obtain ⟨h1, h2, h3⟩ := h
            rw [← h3]
            exact hnd1
          · exact ih _ (visited ++ [q]) _ err m1 vis1 hnd1 h

/-- C4: intervention-triggered propagation visits each node at most
once per call (starting from a duplicate-free visited set, the list of
visited nodes stays duplicate-free), and it terminates on every causal
graph, cyclic ones included: the explicit fuel `propBound` always
suffices for `_propagateEffects` to produce a result. -/
theorem c4_propagation_terminates :
    (∀ (fuel : Nat) (m : CM.CModel) (visited queue : List String)
       (err : Option JSError) (m1 : CM.CModel) (vis1 : List String),
       visited.Nodup →
       CM.propagateF fuel m visited queue = some (err, m1, vis1) →
       vis1.Nodup) ∧
    (∀ (m : CM.CModel) (start : String),
       (CM.propagateF (CM.propBound m [start]) m [] [start]).isSome = true) := by
  constructor
  · exact propagateF_nodup
  · intro m start
    apply propagateF_suff ([start] ++ CM.targets m) (CM.targets m)
      (CM.propBound m [start]) m [] [start] rfl
    · intro x hx
      exact List.mem_append.mpr (Or.inr hx)
    · intro x hx
      exact List.mem_append.mpr (Or.inl hx)
    · have hfull : (([start] ++ CM.targets m).filter
          (fun x => decide (x ∉ ([] : List String)))).length =
          ([start] ++ CM.targets m).length := by simp
      rw [hfull]
      unfold CM.propBound
      simp

/-- C4 witness: on the cyclic graph `A → B → A`, a propagation from
`A` returns within `propBound` fuel with a duplicate-free visit list. -/
theorem c4_witness :
    (∃ err m1 vis1, CM.propagateF 10 cmAB [] ["A"] = some (err, m1, vis1) ∧
      vis1.Nodup) ∧
    (CM.propagateF (CM.propBound cmAB ["A"]) cmAB [] ["A"]).isSome = true :=
  ⟨⟨_, _, _, rfl,
    c4_propagation_terminates.1 10 cmAB [] ["A"] _ _ _ List.nodup_nil rfl⟩,
   c4_propagation_terminates.2 cmAB "A"⟩

theorem anc_loop_div : ∀ n : Nat,
    PS.runF n { eRec with ctx := ⟨[], [], 1, 100⟩ }
      (.loop "ancestor" [.str "$X", .str "$Y"] []) = none := by
  intro n
  induction n using Nat.strong_induction_on with
  | _ n ih =>
    rcases Nat.lt_or_ge n 9 with h9 | h9
    · interval_cases n <;> rfl
    · obtain ⟨k, rfl⟩ := Nat.exists_eq_add_of_le h9
      have hd : PS.dispatchF "ancestor" = none := rfl
      have hflt : List.filter (fun p => PS.matchesRule "ancestor" p.1)
          eRec.rules =
          [("ancestor:$X:$Y", [PS.Cond.s "ancestor:$X:$Y"])] := rfl
      have hsa : PS.substituteArgs [JSVal.str "$X", JSVal.str "$Y"]
          "ancestor:$X:$Y" =
          [("X", JSVal.str "$X"), ("Y", JSVal.str "$Y")] := rfl
      have hmb : PS.mergeBindings (⟨[], [], 1, 100⟩ : PS.UCtx)
          [("X", JSVal.str "$X"), ("Y", JSVal.str "$Y")] =
          ⟨[("X", JSVal.str "$X"), ("Y", JSVal.str "$Y")], [], 1, 100⟩ := rfl
      have hsv : PS.substituteVariables "ancestor:$X:$Y"
          [("X", JSVal.str "$X"), ("Y", JSVal.str "$Y")] =
          "ancestor:$X:$Y" := rfl
      have hsp : splitColon "ancestor:$X:$Y" = ["ancestor", "$X", "$Y"] := rfl
      have hsp2 : splitColon "ancestor" = ["ancestor"] := rfl
      have hb1 : ("ancestor" == "isA") = false := rfl
      have hb2 : ("ancestor" == "hasA") = false := rfl
      have hb3 : ("ancestor" == "ancestor") = true := rfl
      have ha : eRec.active = some 0 := rfl
      have hh : eRec.heap.get? 0 = some (PS.RealityM.mk "W" CM.emptyModel) := rfl
      have hinc : PS.incrementDepth PS.freshCtx =
          .ok ⟨[], [], 1, 100⟩ := rfl
      have hkb : PS.collectFacts eRec.knowledgeBase
          ("ancestor" ++ ":" ++ joinColon
            (List.map elemStr [JSVal.str "$X", JSVal.str "$Y"])) = [] := rfl
      have hfact : PS.runF (1 + k)
          { eRec with ctx := ⟨[("X", JSVal.str "$X"), ("Y", JSVal.str "$Y")],
              [], 1, 100⟩ }
          (.factRule "ancestor" [.str "$X", .str "$Y"]) = none := by
        rw [show (1 : Nat) + k = k + 1 from by omega]
        simp only [PS.runF, hinc, hkb, ih k (by omega)]
      have hquery : PS.runF (2 + k)
          { eRec with ctx := ⟨[("X", JSVal.str "$X"), ("Y", JSVal.str "$Y")],
              [], 1, 100⟩ }
          (.query "ancestor" [.str "$X", .str "$Y"]) = none := by
        rw [show (2 : Nat) + k = (1 + k) + 1 from by omega]
        simp only [PS.runF, PS.activeModel, ha, hsp2, hb1, hb2, hd, hh,
          List.headD, Option.map_some', CM.emptyModel, mget,
          Bool.false_eq_true, if_false]
        exact hfact
      have hcond1 : PS.runF (3 + k)
          { eRec with ctx := ⟨[("X", JSVal.str "$X"), ("Y", JSVal.str "$Y")],
              [], 1, 100⟩ }
          (.cond1 (PS.Cond.s "ancestor:$X:$Y")
            [("X", JSVal.str "$X"), ("Y", JSVal.str "$Y")] "ancestor") =
          none := by
        rw [show (3 : Nat) + k = (2 + k) + 1 from by omega]
        simp only [PS.runF, hsv, hsp, List.headD, List.tail_cons,
          List.map_cons, List.map_nil, hb1, hb2, hb3, Bool.false_eq_true,
          if_false, if_true, hquery]
      have hconds : PS.runF (4 + k)
          { eRec with ctx := ⟨[("X", JSVal.str "$X"), ("Y", JSVal.str "$Y")],
              [], 1, 100⟩ }
          (.conds [PS.Cond.s "ancestor:$X:$Y"]
            [("X", JSVal.str "$X"), ("Y", JSVal.str "$Y")] "ancestor") =
          none := by
        rw [show (4 : Nat) + k = (3 + k) + 1 from by omega]
        simp only [PS.runF, hcond1]
      have hrb : PS.runF (5 + k) { eRec with ctx := ⟨[], [], 1, 100⟩ }
          (.ruleBody [PS.Cond.s "ancestor:$X:$Y"]
            [("X", JSVal.str "$X"), ("Y", JSVal.str "$Y")] "ancestor") =
          none := by
        rw [show (5 : Nat) + k = (4 + k) + 1 from by omega]
        simp only [PS.runF, hmb, hconds]
      have htry : PS.runF (6 + k) { eRec with ctx := ⟨[], [], 1, 100⟩ }
          (.tryRules "ancestor" [.str "$X", .str "$Y"]
            [("ancestor:$X:$Y", [PS.Cond.s "ancestor:$X:$Y"])]) = none := by
        rw [show (6 : Nat) + k = (5 + k) + 1 from by omega]
        simp only [PS.runF, hsa, hrb]
      have heval : PS.runF (7 + k) { eRec with ctx := ⟨[], [], 1, 100⟩ }
          (.evalGoal "ancestor" [.str "$X", .str "$Y"]) = none := by
        rw [show (7 : Nat) + k = (6 + k) + 1 from by omega]
        simp only [PS.runF, hd, hflt, htry]
      have hfind : PS.runF (8 + k) { eRec with ctx := ⟨[], [], 1, 100⟩ }
          (.findSol "ancestor" [.str "$X", .str "$Y"] []) = none := by
        rw [show (8 : Nat) + k = (7 + k) + 1 from by omega]
        simp only [PS.runF, heval]
      rw [show (9 : Nat) + k = (8 + k) + 1 from by omega]
      simp only [PS.runF, hfind]

theorem anc_query_div : ∀ fuel : Nat,
    PS.queryF fuel eRec "ancestor" [.str "$X", .str "$Y"] = none := by
  intro fuel
  rcases Nat.lt_or_ge fuel 2 with h2 | h2
  · interval_cases fuel <;> rfl
  · obtain ⟨k, rfl⟩ := Nat.exists_eq_add_of_le h2
    have hloop := anc_loop_div k
    have hd : PS.dispatchF "ancestor" = none := rfl
    have hsp2 : splitColon "ancestor" = ["ancestor"] := rfl
    have hb1 : ("ancestor" == "isA") = false := rfl
    have hb2 : ("ancestor" == "hasA") = false := rfl
    have ha : eRec.active = some 0 := rfl
    have hh : eRec.heap.get? 0 = some (PS.RealityM.mk "W" CM.emptyModel) := rfl
    have hinc : PS.incrementDepth PS.freshCtx = .ok ⟨[], [], 1, 100⟩ := rfl
    have hkb : PS.collectFacts eRec.knowledgeBase
        ("ancestor" ++ ":" ++ joinColon
          (List.map elemStr [JSVal.str "$X", JSVal.str "$Y"])) = [] := rfl
    rw [show (2 : Nat) + k = (1 + k) + 1 from by omega]
    simp only [PS.queryF, PS.runF, PS.activeModel, ha, hsp2, hb1, hb2, hd,
      hh, List.headD, Option.map_some', CM.emptyModel, mget,
      Bool.false_eq_true, if_false]
    rw [show (1 : Nat) + k = k + 1 from by omega]
    simp only [PS.runF, hinc, hkb, hloop]

/-- C8 counterexample: with fuel 150 — far beyond the configured
maximum depth of 100 — the query over the directly self-recursive
`ancestor` rule is still running (no result, in particular no
recursion-limit error): the engine recursed unboundedly instead of
failing. -/
theorem c8_counterexample :
    PS.queryF 150 eRec "ancestor" [.str "$X", .str "$Y"] = none ∧
    eRec.ctx.maxDepth = 100 := ⟨rfl, rfl⟩

/-- C8 (amended): the depth guard itself is sound —
`incrementDepth` throws the recursion-limit error exactly when the
depth has reached the configured maximum (default 100), an accepted
increment adds one, and an accepted context never exceeds the maximum.
But top-level `query` resolution installs a fresh Environment on every
generic fact/rule descent, so the counter never accumulates across
recursive rule resolution: a directly self-recursive rule makes the
query diverge at every fuel (no recursion-limit error is ever
reported). -/
theorem c8_depth_guard :
    (∀ c : PS.UCtx, c.maxDepth ≤ c.depth →
      PS.incrementDepth c =
        .error (.err "Maximum recursion depth exceeded")) ∧
    (∀ c : PS.UCtx, c.depth < c.maxDepth →
      PS.incrementDepth c = .ok { c with depth := c.depth + 1 }) ∧
    (∀ c c' : PS.UCtx, PS.incrementDepth c = .ok c' →
      c'.depth ≤ c.maxDepth) ∧
    (∀ fuel : Nat,
      PS.queryF fuel eRec "ancestor" [.str "$X", .str "$Y"] = none) := by
  refine ⟨?_, ?_, ?_, anc_query_div⟩
  · intro c h
    simp [PS.incrementDepth, h]
  · intro c h
    rw [PS.incrementDepth, if_neg (Nat.not_le.mpr h)]
  · intro c c' h
    rw [PS.incrementDepth] at h
    split at h
    · exact Except.noConfusion h
    · rename_i hlt
      obtain rfl := Except.ok.inj h
      simp only [Nat.not_le] at hlt
      simp
      omega

/-- C8 witness: the guard fires at depth 100/100; a fresh context
increments to depth 1 and stays within bound; and at fuel 150 the
self-recursive query has produced no result. -/
theorem c8_witness :
    (PS.incrementDepth ⟨[], [], 100, 100⟩ =
      .error (.err "Maximum recursion depth exceeded")) ∧
    (PS.incrementDepth PS.freshCtx = .ok ⟨[], [], 1, 100⟩) ∧
    ((⟨[], [], 1, 100⟩ : PS.UCtx).depth ≤ PS.freshCtx.maxDepth) ∧
    (PS.queryF 150 eRec "ancestor" [.str "$X", .str "$Y"] = none) :=
  ⟨c8_depth_guard.1 ⟨[], [], 100, 100⟩ (by decide),
   c8_depth_guard.2.1 PS.freshCtx (by decide),
   c8_depth_guard.2.2.1 PS.freshCtx ⟨[], [], 1, 100⟩ rfl,
   c8_depth_guard.2.2.2 150⟩
